import Mathlib

/-!
Verification development for the Figma design-system generator
(scripts/fetch-figma.js).  The JavaScript source is shallowly embedded:
pure string/tree transformations become Lean functions, JS numbers become
rationals, nullable values become Option, and the recursive tree walks are
expressed with an explicit depth-fuel parameter (structural recursion on
the fuel) so that all definitions are executable and kernel-reducible.
-/

/-! ## Character-level helpers (JS string semantics) -/

/-- Characters are compared through their code points throughout. -/
theorem toNat_ofNat_valid (m : Nat) (h : m < 55296) : (Char.ofNat m).toNat = m := by
  have hv : m.isValidChar := Or.inl h
  simp only [Char.ofNat, hv, dite_true, Char.ofNatAux, Char.toNat, UInt32.ofNat',
    UInt32.toNat, BitVec.toNat_ofNatLt]

/-- ASCII lower-casing of one character, as JS String.prototype.toLowerCase
acts on the ASCII range (all characters this pipeline lower-cases are ASCII). -/
def jsToLower (c : Char) : Char :=
  if 65 ≤ c.toNat ∧ c.toNat ≤ 90 then Char.ofNat (c.toNat + 32) else c

/-- ASCII upper-casing of one character, as JS String.prototype.toUpperCase
acts on the ASCII range. -/
def jsToUpper (c : Char) : Char :=
  if 97 ≤ c.toNat ∧ c.toNat ≤ 122 then Char.ofNat (c.toNat - 32) else c

/-- Membership in the JS character class [a-zA-Z0-9-_] used by
toTokenName's strip step. -/
def isTokenChar (c : Char) : Bool :=
  (97 ≤ c.toNat && c.toNat ≤ 122) || (65 ≤ c.toNat && c.toNat ≤ 90) ||
  (48 ≤ c.toNat && c.toNat ≤ 57) || c.toNat == 45 || c.toNat == 95

/-- Membership in the JS character class [a-zA-Z0-9] used by
sanitizeComponentName's split step. -/
def isAsciiAlnum (c : Char) : Bool :=
  (97 ≤ c.toNat && c.toNat ≤ 122) || (65 ≤ c.toNat && c.toNat ≤ 90) ||
  (48 ≤ c.toNat && c.toNat ≤ 57)

/-- The JS regular-expression class \s (whitespace), by code point. -/
def isJsSpace (c : Char) : Bool :=
  (9 ≤ c.toNat && c.toNat ≤ 13) || c.toNat == 32 || c.toNat == 160 ||
  c.toNat == 5760 || (8192 ≤ c.toNat && c.toNat ≤ 8202) || c.toNat == 8232 ||
  c.toNat == 8233 || c.toNat == 8239 || c.toNat == 8287 || c.toNat == 12288 ||
  c.toNat == 65279

/-- One pass of the JS replacement s.replace by a regular expression
matching a whitespace run, substituting a single hyphen.  The flag records
whether the previous character was inside a whitespace run. -/
def collapseWsAux : Bool → List Char → List Char
  | _, [] => []
  | inRun, c :: rest =>
    if isJsSpace c then
      if inRun then collapseWsAux true rest
      else '-' :: collapseWsAux true rest
    else c :: collapseWsAux false rest

/-- toTokenName from scripts/fetch-figma.js: collapse whitespace runs to a
hyphen, strip characters outside [a-zA-Z0-9-_], then lower-case. -/
def toTokenName (s : String) : String :=
  ⟨((collapseWsAux false s.data).filter isTokenChar).map jsToLower⟩

/-- JS String.prototype.split on a regular expression matching a run of
non-alphanumeric characters: pieces between maximal separator runs,
including empty leading/trailing pieces exactly as JS produces them.
The flag records whether the previous character was inside a separator run. -/
def splitRunsAux : Bool → List Char → List (List Char)
  | _, [] => [[]]
  | inSep, c :: rest =>
    if isAsciiAlnum c then
      match splitRunsAux false rest with
      | w :: ws => (c :: w) :: ws
      | [] => [[c]]
    else if inSep then splitRunsAux true rest
    else [] :: splitRunsAux true rest

/-- word.charAt(0).toUpperCase() + word.slice(1).toLowerCase() on a word. -/
def capitalizeWord : List Char → List Char
  | [] => []
  | c :: rest => jsToUpper c :: rest.map jsToLower

/-- sanitizeComponentName from scripts/fetch-figma.js: split the label on
non-alphanumeric runs, capitalize each fragment, concatenate (PascalCase). -/
def sanitizeComponentName (s : String) : String :=
  ⟨((splitRunsAux false s.data).map capitalizeWord).flatten⟩

/-! ## Decimal rendering of numbers (JS template literals) -/

/-- The ASCII digit character for a value below ten. -/
def digitChar (d : Nat) : Char := Char.ofNat (48 + d)

/-- Decimal digit expansion; the fuel bounds the number of digits. -/
def natToStrAux : Nat → Nat → List Char
  | 0, _ => []
  | fuel + 1, n =>
    if n < 10 then [digitChar n]
    else natToStrAux fuel (n / 10) ++ [digitChar (n % 10)]

/-- Decimal rendering of a natural number, as a JS template literal
renders a nonnegative integer. -/
def natToStr (n : Nat) : String := ⟨natToStrAux (n + 1) n⟩

/-- Reading a digit list back as a number (verification-side inverse). -/
def parseDigits (l : List Char) : Nat := l.foldl (fun a c => a * 10 + (c.toNat - 48)) 0

/-! ## Asset filenames -/

/-- The node-id sanitization id.replace(/:/g, '-') used for filenames. -/
def sanitizeNodeId (id : String) : String :=
  ⟨id.data.map (fun c => if c = ':' then '-' else c)⟩

/-- Verification-side inverse of sanitizeNodeId (restore ':' for '-'). -/
def restoreNodeId (s : String) : String :=
  ⟨s.data.map (fun c => if c = '-' then ':' else c)⟩

/-- The asset filename built in exportNodesAsFormat:
baseName-sanitizedId.format, with baseName = toTokenName(name) for a truthy
name and the literal "asset" otherwise. -/
def mkFilename (name : Option String) (id : String) (fmt : String) : String :=
  (match name with
    | some s => if s ≠ "" then toTokenName s else "asset"
    | none => "asset") ++ "-" ++ sanitizeNodeId id ++ "." ++ fmt

/-! ## Character lemmas -/

theorem jsToLower_toNat (c : Char) :
    (jsToLower c).toNat =
      if 65 ≤ c.toNat ∧ c.toNat ≤ 90 then c.toNat + 32 else c.toNat := by
  unfold jsToLower
  split
  · next h => rw [toNat_ofNat_valid _ (by omega)]
  · next h => simp [h]

theorem jsToLower_eq_self (c : Char) (h : ¬ (65 ≤ c.toNat ∧ c.toNat ≤ 90)) :
    jsToLower c = c := by
  unfold jsToLower
  exact if_neg h

theorem jsToLower_idem (c : Char) : jsToLower (jsToLower c) = jsToLower c := by
  have ht := jsToLower_toNat c
  by_cases hc : 65 ≤ c.toNat ∧ c.toNat ≤ 90
  · apply jsToLower_eq_self
    rw [if_pos hc] at ht
    omega
  · rw [jsToLower_eq_self c hc, jsToLower_eq_self c hc]

theorem isTokenChar_jsToLower (c : Char) (h : isTokenChar c = true) :
    isTokenChar (jsToLower c) = true := by
  have ht := jsToLower_toNat c
  simp only [isTokenChar, Bool.or_eq_true, Bool.and_eq_true, decide_eq_true_eq,
    beq_iff_eq] at h ⊢
  split at ht <;> omega

theorem not_space_of_token (c : Char) (h : isTokenChar c = true) :
    isJsSpace c = false := by
  simp only [isTokenChar, Bool.or_eq_true, Bool.and_eq_true, decide_eq_true_eq,
    beq_iff_eq] at h
  simp only [isJsSpace, Bool.or_eq_false_iff, Bool.and_eq_false_iff,
    decide_eq_false_iff_not, beq_eq_false_iff_ne, ne_eq]
  omega

theorem collapseWsAux_eq_self (l : List Char) (h : ∀ c ∈ l, isJsSpace c = false) :
    ∀ b, collapseWsAux b l = l := by
  induction l with
  | nil => intro b; rfl
  | cons c rest ih =>
    intro b
    have hc : isJsSpace c = false := h c (by simp)
    simp only [collapseWsAux, hc, Bool.false_eq_true, if_false]
    rw [ih (fun d hd => h d (by simp [hd])) false]

theorem mem_toTokenName (s : String) (c : Char) (hc : c ∈ (toTokenName s).data) :
    ∃ d, isTokenChar d = true ∧ c = jsToLower d := by
  simp only [toTokenName, List.mem_map, List.mem_filter] at hc
  obtain ⟨d, ⟨_, hd⟩, rfl⟩ := hc
  exact ⟨d, hd, rfl⟩

/-- C9. The Name Resolver slug function toTokenName is idempotent:
applying it twice gives the same result as applying it once, because its
output consists only of lower-cased token characters, which the whitespace
collapse, the strip and the lower-casing all leave unchanged. -/
theorem toTokenName_idempotent (s : String) :
    toTokenName (toTokenName s) = toTokenName s := by
  have hchars : ∀ c ∈ (toTokenName s).data,
      isTokenChar c = true ∧ isJsSpace c = false ∧ jsToLower c = c := by
    intro c hc
    obtain ⟨d, hd, rfl⟩ := mem_toTokenName s c hc
    exact ⟨isTokenChar_jsToLower d hd,
      not_space_of_token _ (isTokenChar_jsToLower d hd), jsToLower_idem d⟩
  show (⟨((collapseWsAux false (toTokenName s).data).filter isTokenChar).map jsToLower⟩ : String)
      = toTokenName s
  rw [collapseWsAux_eq_self _ (fun c hc => (hchars c hc).2.1) false]
  rw [List.filter_eq_self.mpr (fun c hc => (hchars c hc).1)]
  have : ∀ l : List Char, (∀ c ∈ l, jsToLower c = c) → l.map jsToLower = l := by
    intro l
    induction l with
    | nil => intro _; rfl
    | cons c rest ih =>
      intro h
      simp only [List.map_cons, h c (by simp)]
      rw [ih (fun d hd => h d (by simp [hd]))]
  rw [this _ (fun c hc => (hchars c hc).2.2)]

/-! ## C10: labels without ASCII alphanumerics -/

theorem splitRunsAux_all_nil (l : List Char) (h : ∀ c ∈ l, isAsciiAlnum c = false) :
    ∀ b, ∀ w ∈ splitRunsAux b l, w = [] := by
  induction l with
  | nil => intro b w hw; simp only [splitRunsAux, List.mem_singleton] at hw; exact hw
  | cons c rest ih =>
    intro b w hw
    have hc : isAsciiAlnum c = false := h c (by simp)
    have ih' := ih (fun d hd => h d (by simp [hd]))
    simp only [splitRunsAux, hc, Bool.false_eq_true, if_false] at hw
    cases b with
    | true =>
      simp only [if_true] at hw
      exact ih' true w hw
    | false =>
      simp only [Bool.false_eq_true, if_false, List.mem_cons] at hw
      rcases hw with rfl | hw
      · rfl
      · exact ih' true w hw

theorem sanitizeComponentName_empty (s : String)
    (h : ∀ c ∈ s.data, isAsciiAlnum c = false) : sanitizeComponentName s = "" := by
  have hall := splitRunsAux_all_nil s.data h false
  show (⟨((splitRunsAux false s.data).map capitalizeWord).flatten⟩ : String) = ""
  have : ((splitRunsAux false s.data).map capitalizeWord).flatten = [] := by
    apply List.flatten_eq_nil_iff.mpr
    intro w hw
    simp only [List.mem_map] at hw
    obtain ⟨v, hv, rfl⟩ := hw
    rw [hall v hv]
    rfl
  rw [this]

theorem toTokenName_empty (s : String)
    (h : ∀ c ∈ s.data, isJsSpace c = false ∧ isTokenChar c = false) :
    toTokenName s = "" := by
  show (⟨((collapseWsAux false s.data).filter isTokenChar).map jsToLower⟩ : String) = ""
  rw [collapseWsAux_eq_self _ (fun c hc => (h c hc).1) false]
  have : s.data.filter isTokenChar = [] := by
    apply List.filter_eq_nil_iff.mpr
    intro c hc
    simp [(h c hc).2]
  rw [this]
  rfl

/-- C10 counterexample. The claim states that for EVERY label without an
ASCII alphanumeric character both name functions return the empty string;
but the label consisting of a single underscore has no ASCII alphanumeric
character, yet toTokenName keeps the underscore (its kept class is
[a-zA-Z0-9-_], not [a-zA-Z0-9]), so toTokenName of an underscore is an
underscore, not the empty string. -/
theorem claim_C10_counterexample :
    (∀ c ∈ ("_" : String).data, isAsciiAlnum c = false) ∧
    toTokenName "_" = "_" ∧ ("_" : String) ≠ "" := by
  refine ⟨by decide, by decide, by decide⟩

/-- C10 (amended). For every label with no ASCII alphanumeric character,
sanitizeComponentName returns the empty string; toTokenName returns the
empty string only for labels that additionally contain no whitespace (which
collapses to a hyphen) and no hyphen or underscore (which survive the
strip).  On the concrete label "!!!" both functions return the empty
string, and no fallback identifier is substituted. -/
theorem claim_C10_empty_names (s t : String)
    (hs : ∀ c ∈ s.data, isAsciiAlnum c = false)
    (ht : ∀ c ∈ t.data, isAsciiAlnum c = false ∧ isJsSpace c = false ∧
      c.toNat ≠ 45 ∧ c.toNat ≠ 95) :
    sanitizeComponentName s = "" ∧ toTokenName t = "" ∧
    sanitizeComponentName "!!!" = "" ∧ toTokenName "!!!" = "" := by
  refine ⟨sanitizeComponentName_empty s hs, ?_, by decide, by decide⟩
  apply toTokenName_empty
  intro c hc
  obtain ⟨h1, h2, h3, h4⟩ := ht c hc
  refine ⟨h2, ?_⟩
  simp only [isAsciiAlnum, Bool.or_eq_false_iff, Bool.and_eq_false_iff,
    decide_eq_false_iff_not] at h1
  simp only [isTokenChar, Bool.or_eq_false_iff, Bool.and_eq_false_iff,
    decide_eq_false_iff_not, beq_eq_false_iff_ne, ne_eq]
  omega

/-- C10 witness: the amended statement applied to the concrete label "!!!". -/
theorem claim_C10_empty_names_witness :
    sanitizeComponentName "!!!" = "" ∧ toTokenName "!!!" = "" := by
  have h := claim_C10_empty_names "!!!" "!!!" (by decide) (by decide)
  exact ⟨h.1, h.2.1⟩

/-! ## C7: asset filename uniqueness and invertibility -/

theorem string_data_append (s t : String) : (s ++ t).data = s.data ++ t.data := by
  cases s
  cases t
  rfl

theorem restore_sanitize (id : String) (h : '-' ∉ id.data) :
    restoreNodeId (sanitizeNodeId id) = id := by
  cases id with
  | mk l =>
    show (⟨(l.map fun c => if c = ':' then '-' else c).map
      fun c => if c = '-' then ':' else c⟩ : String) = ⟨l⟩
    rw [List.map_map]
    congr 1
    have : ∀ c ∈ l, ((fun c => if c = '-' then ':' else c) ∘
        fun c => if c = ':' then '-' else c) c = c := by
      intro c hc
      have hcne : c ≠ '-' := fun he => h (he ▸ hc)
      by_cases hcc : c = ':'
      · simp [hcc]
      · simp [Function.comp, hcc, hcne]
    calc l.map ((fun c => if c = '-' then ':' else c) ∘ fun c => if c = ':' then '-' else c)
        = l.map id := List.map_congr_left this
    _ = l := List.map_id l

theorem sanitizeNodeId_inj (id₁ id₂ : String) (h1 : '-' ∉ id₁.data)
    (h2 : '-' ∉ id₂.data) (he : sanitizeNodeId id₁ = sanitizeNodeId id₂) :
    id₁ = id₂ := by
  rw [← restore_sanitize id₁ h1, ← restore_sanitize id₂ h2, he]

/-- C7 counterexample. The claim states filenames are distinct for every
pair of distinct node ids and that the id is recoverable from the
filename; but the ':'→'-' sanitization identifies the distinct ids "1:2"
and "1-2", which therefore produce identical filenames under the same
label, so neither distinctness nor recoverability holds in general. -/
theorem claim_C7_counterexample :
    mkFilename (some "x") "1:2" "svg" = mkFilename (some "x") "1-2" "svg" ∧
    ("1:2" : String) ≠ "1-2" := by
  refine ⟨by decide, by decide⟩

/-- C7 (amended). The filename scheme guarantees uniqueness for nodes that
share a label provided the ':'→'-' sanitization is injective on their ids,
which holds whenever the ids contain no hyphen (as Figma node ids do); in
that case the sanitized id, and hence the node id, is recoverable from the
filename by restoring ':' for '-'.  Distinct ids whose sanitized forms
coincide collide. -/
theorem claim_C7_filename_unique (name : Option String) (fmt id₁ id₂ : String)
    (h1 : '-' ∉ id₁.data) (h2 : '-' ∉ id₂.data) :
    restoreNodeId (sanitizeNodeId id₁) = id₁ ∧
    (mkFilename name id₁ fmt = mkFilename name id₂ fmt → id₁ = id₂) := by
  refine ⟨restore_sanitize id₁ h1, ?_⟩
  intro he
  unfold mkFilename at he
  have hd := congrArg String.data he
  simp only [string_data_append, List.append_assoc] at hd
  have hd1 := List.append_cancel_left hd
  have hd2 := List.append_cancel_left hd1
  have hd3 := List.append_cancel_right hd2
  exact sanitizeNodeId_inj id₁ id₂ h1 h2 (by
    cases hq1 : sanitizeNodeId id₁ with
    | mk l1 =>
      cases hq2 : sanitizeNodeId id₂ with
      | mk l2 =>
        rw [hq1, hq2] at hd3
        simp only at hd3
        rw [hd3])

/-- C7 witness: the amended statement applied to the concrete ids "1:2"
and "3:4" (hyphen-free), same label and format. -/
theorem claim_C7_filename_unique_witness :
    restoreNodeId (sanitizeNodeId "1:2") = "1:2" ∧
    (mkFilename (some "x") "1:2" "svg" = mkFilename (some "x") "3:4" "svg" →
      ("1:2" : String) = "3:4") :=
  claim_C7_filename_unique (some "x") "svg" "1:2" "3:4" (by decide) (by decide)

/-! ## Data model: Figma document nodes -/

/-- An RGBA paint color as delivered by the Figma API (components in 0..1;
alpha may be absent). -/
structure Color where
  r : ℚ
  g : ℚ
  b : ℚ
  a : Option ℚ := none
deriving DecidableEq

/-- A resolved CSS color value as produced by figmaColorToCss: rounded
0..255 channels and an alpha (the rgb/rgba textual form is determined by
whether the alpha is below one). -/
structure CssColor where
  r : ℤ
  g : ℤ
  b : ℤ
  a : ℚ
deriving DecidableEq

/-- JS Math.round on our rational embedding of JS numbers. -/
def jsRound (q : ℚ) : ℤ := ⌊q + 1 / 2⌋

/-- figmaColorToCss from scripts/fetch-figma.js: scale each channel by 255
and round; a missing alpha defaults to 1. -/
def figmaColorToCss (c : Color) : CssColor :=
  ⟨jsRound (c.r * 255), jsRound (c.g * 255), jsRound (c.b * 255), c.a.getD 1⟩

/-- One entry of a node's fills array. -/
structure Fill where
  type : String
  color : Option Color := none
deriving DecidableEq

/-- A node's typography style block. -/
structure TextBlock where
  fontSize : Option ℚ := none
  fontWeight : Option ℚ := none
  fontFamily : Option String := none
  letterSpacing : Option ℚ := none
  lineHeightPx : Option ℚ := none
  lineHeight : Option ℚ := none
  textAlignHorizontal : Option String := none
deriving DecidableEq

/-- A node's absolute bounding box (width/height only are read). -/
structure BBox where
  width : ℚ
  height : ℚ
deriving DecidableEq

/-- The scalar attributes of one Figma document node that the generator
reads; absent JSON attributes are none. -/
structure NodeData where
  id : String := ""
  name : Option String := none
  type : String := ""
  characters : Option String := none
  fills : Option (List Fill) := none
  style : Option TextBlock := none
  absoluteBoundingBox : Option BBox := none
  layoutSizingHorizontal : Option String := none
  layoutSizingVertical : Option String := none
  layoutGrow : Option ℚ := none
  backgroundColor : Option Color := none
  cornerRadius : Option ℚ := none
  rectangleCornerRadii : Option (List ℚ) := none
  layoutMode : Option String := none
  itemSpacing : Option ℚ := none
  primaryAxisAlignItems : Option String := none
  counterAxisAlignItems : Option String := none
  paddingTop : Option ℚ := none
  paddingRight : Option ℚ := none
  paddingBottom : Option ℚ := none
  paddingLeft : Option ℚ := none
  exportSettings : Option (List Unit) := none
deriving DecidableEq

/-- A Figma document node: scalar data plus the ordered children list
(the document is a strict ownership tree). -/
inductive Node where
  | mk (data : NodeData) (children : List Node)

def Node.data : Node → NodeData
  | .mk d _ => d

def Node.children : Node → List Node
  | .mk _ cs => cs

/-! ## JS truthiness helpers -/

/-- Truthiness of a nullable JS string (undefined and "" are falsy). -/
def jsStrTruthy (o : Option String) : Bool :=
  match o with
  | some s => s ≠ ""
  | none => false

/-- value || null for a nullable JS number (0 is falsy). -/
def jsNumOrNull (o : Option ℚ) : Option ℚ :=
  match o with
  | some v => if v = 0 then none else some v
  | none => none

/-- value || null for a nullable JS string ("" is falsy). -/
def jsStrOrNull (o : Option String) : Option String :=
  match o with
  | some s => if s = "" then none else some s
  | none => none

/-- a || b || null for nullable JS numbers. -/
def jsNumOr (a b : Option ℚ) : Option ℚ :=
  match jsNumOrNull a with
  | some v => some v
  | none => jsNumOrNull b

/-- ASCII lower-casing of a whole string. -/
def strToLower (s : String) : String := ⟨s.data.map jsToLower⟩

/-! ## Style and text extraction -/

/-- The guard node.type === 'TEXT' && node.characters shared by the
extraction walks. -/
def isTextish (d : NodeData) : Bool := d.type == "TEXT" && jsStrTruthy d.characters

/-- The first-fill color rule shared verbatim by extractTextNodes and
extractChildElements: only fills[0] is consulted, and only when it is a
SOLID fill carrying a color. -/
def firstFillColor (fills : Option (List Fill)) : Option CssColor :=
  match fills with
  | some (f :: _) => if f.type = "SOLID" then f.color.map figmaColorToCss else none
  | _ => none

/-- The text style record built per TEXT node by extractTextNodes. -/
structure TextStyle where
  id : String
  name : Option String
  text : String
  fontSize : Option ℚ
  fontWeight : Option ℚ
  fontFamily : Option String
  letterSpacing : Option ℚ
  lineHeight : Option ℚ
  textAlign : Option String
  color : Option CssColor
  depth : Nat
deriving DecidableEq

/-- The per-node body of extractTextNodes (fields read with JS optional
chaining and || null defaulting). -/
def mkTextStyle (d : NodeData) (depth : Nat) : TextStyle where
  id := d.id
  name := d.name
  text := d.characters.getD ""
  fontSize := jsNumOrNull (d.style.bind TextBlock.fontSize)
  fontWeight := jsNumOrNull (d.style.bind TextBlock.fontWeight)
  fontFamily := jsStrOrNull (d.style.bind TextBlock.fontFamily)
  letterSpacing := jsNumOrNull (d.style.bind TextBlock.letterSpacing)
  lineHeight := jsNumOr (d.style.bind TextBlock.lineHeightPx) (d.style.bind TextBlock.lineHeight)
  textAlign := jsStrOrNull ((d.style.bind TextBlock.textAlignHorizontal).map strToLower)
  color := firstFillColor d.fills
  depth := depth

/-- extractTextNodes from scripts/fetch-figma.js: pre-order collection of
all TEXT nodes with non-empty characters; the fuel bounds the recursion
depth (structural recursion stand-in for the nested tree recursion). -/
def extractTextNodes : Nat → Node → Nat → List TextStyle
  | 0, _, _ => []
  | fuel + 1, .mk d cs, depth =>
    (if isTextish d then [mkTextStyle d depth] else []) ++
    cs.flatMap (fun c => extractTextNodes fuel c (depth + 1))

/-- The four-edge padding record. -/
structure Padding where
  top : ℚ
  right : ℚ
  bottom : ℚ
  left : ℚ
deriving DecidableEq

/-- The padding extraction shared verbatim by extractChildElements and
extractComponentData: the record is built only when paddingLeft is
present, the other three edges default to 0 via || 0. -/
def paddingOf (d : NodeData) : Option Padding :=
  match d.paddingLeft with
  | some _ => some ⟨d.paddingTop.getD 0, d.paddingRight.getD 0,
      d.paddingBottom.getD 0, d.paddingLeft.getD 0⟩
  | none => none

/-- The scalar part of the element record built per node by
extractChildElements. -/
structure ElementData where
  id : String
  name : Option String
  type : String
  depth : Nat
  width : Option ℤ := none
  height : Option ℤ := none
  layoutSizingHorizontal : Option String := none
  layoutSizingVertical : Option String := none
  layoutGrow : Option ℚ := none
  backgroundColor : Option CssColor := none
  fill : Option CssColor := none
  borderRadius : Option ℚ := none
  text : Option String := none
  fontSize : Option ℚ := none
  fontWeight : Option ℚ := none
  fontFamily : Option String := none
  lineHeight : Option ℚ := none
  textAlign : Option String := none
  color : Option CssColor := none
  layoutMode : Option String := none
  gap : Option ℚ := none
  padding : Option Padding := none
deriving DecidableEq

/-- The per-node body of extractChildElements. -/
def mkElementData (d : NodeData) (depth : Nat) : ElementData where
  id := d.id
  name := d.name
  type := d.type
  depth := depth
  width := d.absoluteBoundingBox.map (fun bb => jsRound bb.width)
  height := d.absoluteBoundingBox.map (fun bb => jsRound bb.height)
  layoutSizingHorizontal := jsStrOrNull d.layoutSizingHorizontal
  layoutSizingVertical := jsStrOrNull d.layoutSizingVertical
  layoutGrow := d.layoutGrow
  backgroundColor := d.backgroundColor.map figmaColorToCss
  fill := firstFillColor d.fills
  borderRadius := d.cornerRadius
  text := if isTextish d then d.characters else none
  fontSize := if isTextish d then jsNumOrNull (d.style.bind TextBlock.fontSize) else none
  fontWeight := if isTextish d then jsNumOrNull (d.style.bind TextBlock.fontWeight) else none
  fontFamily := if isTextish d then jsStrOrNull (d.style.bind TextBlock.fontFamily) else none
  lineHeight := if isTextish d then
    jsNumOr (d.style.bind TextBlock.lineHeightPx) (d.style.bind TextBlock.lineHeight) else none
  textAlign := if isTextish d then
    jsStrOrNull ((d.style.bind TextBlock.textAlignHorizontal).map strToLower) else none
  color := if isTextish d then firstFillColor d.fills else none
  layoutMode := jsStrOrNull d.layoutMode
  gap := d.itemSpacing
  padding := paddingOf d

/-- The element tree built by extractChildElements (scalar record plus
recursively extracted children). -/
inductive Element where
  | mk (data : ElementData) (children : List Element)

def Element.data : Element → ElementData
  | .mk d _ => d

def Element.children : Element → List Element
  | .mk _ cs => cs

/-- extractChildElements from scripts/fetch-figma.js; in the source the
function returns a one-element array whose single entry carries the nested
children, so the embedding returns that single element.  The fuel bounds
the recursion depth. -/
def extractChildElements : Nat → Node → Nat → Element
  | 0, n, depth => .mk (mkElementData n.data depth) []
  | fuel + 1, n, depth =>
    .mk (mkElementData n.data depth)
      (n.children.map (fun c => extractChildElements fuel c (depth + 1)))

/-! ## Classifier and asset discovery -/

/-- hasImageFills from scripts/fetch-figma.js: the fills array exists and
contains at least one IMAGE fill. -/
def hasImageFills (d : NodeData) : Bool :=
  match d.fills with
  | some fs => fs.any (fun f => f.type == "IMAGE")
  | none => false

/-- The pure vector node types given SVG export. -/
def isVectorType (t : String) : Bool :=
  t == "VECTOR" || t == "BOOLEAN_OPERATION" || t == "STAR" ||
  t == "ELLIPSE" || t == "POLYGON" || t == "LINE"

/-- The per-node asset-candidate test of findExportableNodes: an explicit
export directive, an image fill, or a vector type. -/
def shouldExportNode (d : NodeData) : Bool :=
  (match d.exportSettings with
    | some l => !l.isEmpty
    | none => false) || hasImageFills d || isVectorType d.type

/-- findExportableNodes from scripts/fetch-figma.js: pre-order collection
of all asset-candidate nodes; the fuel bounds the recursion depth. -/
def findExportableNodes : Nat → Node → List Node
  | 0, _ => []
  | fuel + 1, n =>
    (if shouldExportNode n.data then [n] else []) ++
    n.children.flatMap (findExportableNodes fuel)

/-- Pre-order collection of the whole subtree (verification-side helper
for characterizing findExportableNodes). -/
def allNodes : Nat → Node → List Node
  | 0, _ => []
  | fuel + 1, n => n :: n.children.flatMap (allNodes fuel)

/-- The vector partition selected inside exportImages. -/
def vectorNodesOf (ns : List Node) : List Node :=
  ns.filter (fun n => isVectorType n.data.type)

/-- The raster partition selected inside exportImages. -/
def imageNodesOf (ns : List Node) : List Node :=
  ns.filter (fun n => hasImageFills n.data)

/-- hasImages from scripts/fetch-figma.js (note: unlike the asset
classifier it does not treat LINE as an image type). -/
def hasImages : Nat → Node → Bool
  | 0, _ => false
  | fuel + 1, n =>
    hasImageFills n.data || n.data.type == "VECTOR" ||
    n.data.type == "BOOLEAN_OPERATION" || n.data.type == "STAR" ||
    n.data.type == "ELLIPSE" || n.data.type == "POLYGON" ||
    n.children.any (hasImages fuel)

/-- The asset record collected by findComponentAssets (filename is filled
in later from the export map). -/
structure AssetRec where
  id : String
  name : Option String
  type : String
  hasImageFill : Bool
  filename : Option String := none
deriving DecidableEq

/-- The per-node asset test of findComponentAssets (an image fill or any
vector type, including LINE). -/
def isComponentAssetNode (d : NodeData) : Bool :=
  hasImageFills d || d.type == "VECTOR" || d.type == "BOOLEAN_OPERATION" ||
  d.type == "STAR" || d.type == "ELLIPSE" || d.type == "POLYGON" || d.type == "LINE"

/-- findComponentAssets from scripts/fetch-figma.js: pre-order collection
of the asset nodes inside one component subtree. -/
def findComponentAssets : Nat → Node → List AssetRec
  | 0, _ => []
  | fuel + 1, n =>
    (if isComponentAssetNode n.data
      then [⟨n.data.id, n.data.name, n.data.type, hasImageFills n.data, none⟩] else []) ++
    n.children.flatMap (findComponentAssets fuel)

/-- extractTextContent from scripts/fetch-figma.js: the plain characters
of every TEXT node, in pre-order. -/
def extractTextContent : Nat → Node → List String
  | 0, _ => []
  | fuel + 1, n =>
    (if isTextish n.data then [n.data.characters.getD ""] else []) ++
    n.children.flatMap (extractTextContent fuel)

/-! ## extractComponentData -/

/-- The top-level style record of extractComponentData. -/
structure ComponentStyles where
  width : Option ℤ
  height : Option ℤ
  backgroundColor : Option CssColor
  borderRadius : Option ℚ
  padding : Option Padding
  gap : Option ℚ
  layout : String
  direction : String
  alignItems : String
  justifyContent : String

/-- The primary-axis alignment map (alignMap[...] || 'flex-start'). -/
def primaryAlignCss (v : String) : String :=
  if v = "MIN" then "flex-start"
  else if v = "CENTER" then "center"
  else if v = "MAX" then "flex-end"
  else if v = "SPACE_BETWEEN" then "space-between"
  else "flex-start"

/-- The counter-axis alignment map (alignMap[...] || 'flex-start'). -/
def counterAlignCss (v : String) : String :=
  if v = "MIN" then "flex-start"
  else if v = "CENTER" then "center"
  else if v = "MAX" then "flex-end"
  else "flex-start"

/-- The aggregate produced by extractComponentData. -/
structure ComponentData where
  styles : ComponentStyles
  texts : List String
  textStyles : List TextStyle
  childElements : List Element
  hasImages : Bool
  assets : List AssetRec

/-- JS object lookup assetMap[id] on an association list. -/
def lookupAssoc (m : List (String × String)) (k : String) : Option String :=
  (m.find? (fun p => p.1 == k)).map Prod.snd

/-- extractComponentData from scripts/fetch-figma.js: top-level styles,
plain texts, text styles, the child element tree, the has-images flag and
the component's asset records with filenames looked up in the asset map. -/
def extractComponentData (fuel : Nat) (component : Node)
    (assetMap : List (String × String)) : ComponentData where
  styles :=
    { width := component.data.absoluteBoundingBox.map (fun bb => jsRound bb.width)
      height := component.data.absoluteBoundingBox.map (fun bb => jsRound bb.height)
      backgroundColor := component.data.backgroundColor.map figmaColorToCss
      borderRadius :=
        match component.data.cornerRadius with
        | some r => some r
        | none =>
          match component.data.rectangleCornerRadii with
          | some (r :: _) => some r
          | _ => none
      padding := paddingOf component.data
      gap := component.data.itemSpacing
      layout :=
        match jsStrOrNull component.data.layoutMode with
        | some m => if m = "HORIZONTAL" then "row" else "column"
        | none => "flex"
      direction :=
        match jsStrOrNull component.data.layoutMode with
        | some m => if m = "HORIZONTAL" then "row" else "column"
        | none => "column"
      alignItems :=
        match jsStrOrNull component.data.counterAxisAlignItems with
        | some v => counterAlignCss v
        | none => "flex-start"
      justifyContent :=
        match jsStrOrNull component.data.primaryAxisAlignItems with
        | some v => primaryAlignCss v
        | none => "flex-start" }
  texts := extractTextContent fuel component
  textStyles := extractTextNodes fuel component 0
  childElements := (extractChildElements fuel component 0).children
  hasImages := hasImages fuel component
  assets := (findComponentAssets fuel component).map
    (fun a => { a with filename := jsStrOrNull (lookupAssoc assetMap a.id) })

/-! ## C5: color extraction honors only fills[0] -/

/-- A TEXT node whose fills list is [IMAGE, SOLID red]: it contains a
SOLID fill, but not in first position. -/
def nodeC5 : Node := .mk
  { id := "t1", name := some "T", type := "TEXT", characters := some "Hi",
    fills := some [{ type := "IMAGE" }, { type := "SOLID", color := some ⟨1, 0, 0, some 1⟩ }] } []

/-- C5 counterexample. The claim quantifies over every node whose fills
list contains at least one SOLID fill and asserts the resolved color is
that of the first SOLID fill; but extraction looks only at fills[0], so a
node with fills [IMAGE, SOLID] resolves to no color at all even though its
fills contain a SOLID entry. -/
theorem claim_C5_counterexample :
    ((extractTextNodes 1 nodeC5 0).map TextStyle.color = [none]) ∧
    ((nodeC5.data.fills.getD []).any (fun fl => fl.type == "SOLID") = true) ∧
    ((mkElementData nodeC5.data 0).fill = none) := by
  refine ⟨by decide, by decide, by decide⟩

/-- C5 (amended). Color extraction consults only fills[0]: the color of a
text node's style record and of an element record is the first fill's
color exactly when that first fill is SOLID and carries a color, every
later fill is ignored (replacing the tail of the fills list never changes
the result), a non-SOLID first fill yields no color even when a SOLID fill
occurs later, and a node with no SOLID fill at all yields no color. -/
theorem claim_C5_first_fill_color (fuel : Nat) (d : NodeData) (cs : List Node)
    (depth : Nat) (hT : isTextish d = true) (f : Fill) (rest rest' : List Fill) :
    ((extractTextNodes (fuel + 1) (Node.mk d cs) depth).head?.map TextStyle.color
      = some (firstFillColor d.fills))
  ∧ ((extractChildElements fuel (Node.mk d cs) depth).data.fill = firstFillColor d.fills)
  ∧ (firstFillColor (some (f :: rest)) = firstFillColor (some (f :: rest')))
  ∧ (f.type = "SOLID" → ∀ c, f.color = some c →
      firstFillColor (some (f :: rest)) = some (figmaColorToCss c))
  ∧ (f.type ≠ "SOLID" → firstFillColor (some (f :: rest)) = none)
  ∧ (∀ fills : List Fill, (∀ fl ∈ fills, fl.type ≠ "SOLID") →
      firstFillColor (some fills) = none) := by
  refine ⟨?_, ?_, rfl, ?_, ?_, ?_⟩
  · simp [extractTextNodes, hT, mkTextStyle]
  · cases fuel <;> rfl
  · intro h c hc
    simp [firstFillColor, h, hc]
  · intro h
    simp [firstFillColor, h]
  · intro fills h
    match fills with
    | [] => rfl
    | fl :: rest'' =>
      have : fl.type ≠ "SOLID" := h fl (by simp)
      simp [firstFillColor, this]

/-- C5 witness: the amended statement applied to a concrete TEXT node with
a SOLID red first fill. -/
theorem claim_C5_first_fill_color_witness :
    isTextish nodeC5.data = true ∧
    ((extractTextNodes 1 nodeC5 0).head?.map TextStyle.color
      = some (firstFillColor nodeC5.data.fills)) :=
  ⟨by decide, (claim_C5_first_fill_color 0 nodeC5.data [] 0 (by decide)
    { type := "IMAGE" } [] []).1⟩

/-! ## C6: padding is keyed on paddingLeft -/

/-- A node carrying only a paddingTop attribute. -/
def nodeC6 : Node := .mk
  { id := "p1", name := some "P", type := "FRAME", paddingTop := some 5 } []

/-- A node carrying paddingTop and paddingLeft. -/
def nodeC6w : Node := .mk
  { id := "p2", name := some "Q", type := "FRAME",
    paddingTop := some 3, paddingLeft := some 2 } []

/-- C6 counterexample. The claim states that any non-empty subset of the
four padding edges yields a padding record; but extraction creates the
record only when paddingLeft is present, so a node carrying only
paddingTop gets no padding record at all. -/
theorem claim_C6_counterexample :
    nodeC6.data.paddingTop = some 5 ∧
    (extractChildElements 1 nodeC6 0).data.padding = none ∧
    (extractComponentData 1 nodeC6 []).styles.padding = none := by
  refine ⟨by decide, by decide, by decide⟩

/-- C6 (amended). Padding extraction never crashes and is keyed on the
left edge: both extractChildElements and extractComponentData produce a
padding record exactly when paddingLeft is present, and in that case each
of the other three edges defaults to 0 when absent. -/
theorem claim_C6_padding (fuel : Nat) (d : NodeData) (cs : List Node) (depth : Nat)
    (assetMap : List (String × String)) :
    ((extractChildElements fuel (Node.mk d cs) depth).data.padding = paddingOf d)
  ∧ ((extractComponentData fuel (Node.mk d cs) assetMap).styles.padding = paddingOf d)
  ∧ ((paddingOf d).isSome ↔ d.paddingLeft.isSome)
  ∧ (∀ pl, d.paddingLeft = some pl →
      paddingOf d = some ⟨d.paddingTop.getD 0, d.paddingRight.getD 0,
        d.paddingBottom.getD 0, pl⟩) := by
  refine ⟨?_, rfl, ?_, ?_⟩
  · cases fuel <;> rfl
  · unfold paddingOf
    cases d.paddingLeft <;> simp
  · intro pl hpl
    unfold paddingOf
    rw [hpl]
    rfl

/-- C6 witness: the amended statement applied to a node carrying
paddingTop 3 and paddingLeft 2 yields the record (3, 0, 0, 2). -/
theorem claim_C6_padding_witness :
    (extractChildElements 1 nodeC6w 0).data.padding = some ⟨3, 0, 0, 2⟩ := by
  obtain ⟨h1, _, _, h4⟩ := claim_C6_padding 1 nodeC6w.data [] 0 []
  rw [show (extractChildElements 1 nodeC6w 0).data.padding
      = (extractChildElements 1 (Node.mk nodeC6w.data []) 0).data.padding from rfl]
  rw [h1, h4 2 rfl]
  rfl

/-! ## C4: export partitioning of asset candidates -/

theorem findExportableNodes_eq_filter (fuel : Nat) : ∀ n : Node,
    findExportableNodes fuel n
      = (allNodes fuel n).filter (fun m => shouldExportNode m.data) := by
  induction fuel with
  | zero => intro n; rfl
  | succ f ih =>
    intro n
    have hcs : ∀ cs : List Node, cs.flatMap (findExportableNodes f)
        = (cs.flatMap (allNodes f)).filter (fun m => shouldExportNode m.data) := by
      intro cs
      induction cs with
      | nil => rfl
      | cons c cs ihc =>
        simp only [List.flatMap_cons, List.filter_append, ih c, ihc]
    simp only [findExportableNodes, allNodes, List.filter_cons, hcs n.children]
    cases hs : shouldExportNode n.data <;> simp [hs]

/-- A FRAME node with an explicit export directive, no image fill, and a
non-vector type: an asset candidate that exportImages places in neither
partition. -/
def nodeC4 : Node := .mk
  { id := "e1", name := some "Exported Frame", type := "FRAME",
    exportSettings := some [()] } []

/-- C4 counterexample. The claim states every asset candidate lands in
exactly one of the two export partitions; but a candidate qualifying only
through its export directive (non-vector type, no image fill) is collected
by findExportableNodes and then placed in neither the SVG nor the PNG
partition, so it is never exported. -/
theorem claim_C4_counterexample :
    nodeC4 ∈ findExportableNodes 1 nodeC4 ∧
    vectorNodesOf (findExportableNodes 1 nodeC4) = [] ∧
    imageNodesOf (findExportableNodes 1 nodeC4) = [] := by
  refine ⟨?_, rfl, rfl⟩
  rw [show findExportableNodes 1 nodeC4 = [nodeC4] from rfl]
  exact List.mem_singleton.mpr rfl

/-- C4 (amended). findExportableNodes collects exactly the subtree nodes
satisfying the asset-candidate test (export directive, image fill, or
vector type); exportImages then filters that collection into a vector
partition (vector types) and a raster partition (image fills).  A
candidate is in the vector partition iff it has a vector type and in the
raster partition iff it has an image fill, so a directive-only candidate
is in neither partition and a vector-typed candidate with an image fill is
in both. -/
theorem claim_C4_partitions (fuel : Nat) (root n : Node) :
    (n ∈ findExportableNodes fuel root ↔
      n ∈ allNodes fuel root ∧ shouldExportNode n.data = true)
  ∧ (n ∈ vectorNodesOf (findExportableNodes fuel root) ↔
      n ∈ findExportableNodes fuel root ∧ isVectorType n.data.type = true)
  ∧ (n ∈ imageNodesOf (findExportableNodes fuel root) ↔
      n ∈ findExportableNodes fuel root ∧ hasImageFills n.data = true) := by
  refine ⟨?_, ?_, ?_⟩
  · rw [findExportableNodes_eq_filter]
    simp [List.mem_filter]
  · simp [vectorNodesOf, List.mem_filter]
  · simp [imageNodesOf, List.mem_filter]

/-! ## C3: exportNodesAsFormat batching and failure isolation -/

/-- The outcome of the network collaborators during one export run: which
batch requests succeed, which download URL (if any) the export response
carries per node id, and which downloads succeed.  The try/catch recovery
of the source is modelled by these explicit failure outcomes. -/
structure ExportEnv where
  batchOk : Nat → Bool
  imageUrl : String → Option String
  downloadOk : String → Bool

/-- The per-node body of the download loop in exportNodesAsFormat: skip
the node when the response has no truthy URL for it, skip it when the
download fails, otherwise record id ↦ filename. -/
def processNode (env : ExportEnv) (fmt : String) (n : Node) : Option (String × String) :=
  match jsStrOrNull (env.imageUrl n.data.id) with
  | none => none
  | some u =>
    if env.downloadOk u then some (n.data.id, mkFilename n.data.name n.data.id fmt)
    else none

/-- The batching loop of exportNodesAsFormat: slices of at most 100 nodes
(for i = 0; i < nodes.length; i += batchSize). -/
def toBatches : List Node → List (List Node)
  | [] => []
  | x :: xs => (x :: xs).take 100 :: toBatches ((x :: xs).drop 100)
termination_by l => l.length
decreasing_by simp [List.length_drop]; omega

/-- The indexed batch loop of exportNodesAsFormat: one export request per
batch; a failed batch request contributes nothing for that whole batch. -/
def runBatches (env : ExportEnv) (fmt : String) : Nat → List (List Node) → List (String × String)
  | _, [] => []
  | i, b :: rest =>
    (if env.batchOk i then b.filterMap (processNode env fmt) else []) ++
    runBatches env fmt (i + 1) rest

/-- exportNodesAsFormat from scripts/fetch-figma.js. -/
def exportNodesAsFormat (env : ExportEnv) (nodes : List Node) (fmt : String) :
    List (String × String) :=
  runBatches env fmt 0 (toBatches nodes)

/-- Nodes paired with their list position (verification-side helper). -/
def markPositions : Nat → List Node → List (Nat × Node)
  | _, [] => []
  | p, n :: rest => (p, n) :: markPositions (p + 1) rest

theorem markPositions_append (l1 l2 : List Node) : ∀ p,
    markPositions p (l1 ++ l2)
      = markPositions p l1 ++ markPositions (p + l1.length) l2 := by
  induction l1 with
  | nil => intro p; simp [markPositions]
  | cons x tl ih =>
    intro p
    simp only [List.cons_append, markPositions, List.length_cons, List.append_eq]
    rw [ih (p + 1)]
    have : p + 1 + tl.length = p + (tl.length + 1) := by omega
    rw [this]

theorem markPositions_bounds : ∀ (l : List Node) (p q : Nat) (n : Node),
    (q, n) ∈ markPositions p l → p ≤ q ∧ q < p + l.length := by
  intro l
  induction l with
  | nil => intro p q n h; simp [markPositions] at h
  | cons x tl ih =>
    intro p q n h
    simp only [markPositions, List.mem_cons, Prod.mk.injEq] at h
    rcases h with ⟨rfl, rfl⟩ | h
    · simp
    · have := ih (p + 1) q n h
      constructor <;> [omega; (simp only [List.length_cons]; omega)]

theorem markPositions_filterMap_snd {α : Type} (f : Node → Option α) :
    ∀ (l : List Node) (p : Nat),
      (markPositions p l).filterMap (fun pn => f pn.2) = l.filterMap f := by
  intro l
  induction l with
  | nil => intro p; rfl
  | cons x tl ih =>
    intro p
    simp only [markPositions, List.filterMap_cons]
    cases f x <;> simp [ih (p + 1)]

theorem filterMap_congr_own {α β : Type} (f g : α → Option β) :
    ∀ l : List α, (∀ a ∈ l, f a = g a) → l.filterMap f = l.filterMap g := by
  intro l
  induction l with
  | nil => intro _; rfl
  | cons x tl ih =>
    intro h
    simp only [List.filterMap_cons, h x (by simp)]
    rw [ih (fun a ha => h a (by simp [ha]))]

theorem filterMap_none_own {α β : Type} : ∀ l : List α,
    l.filterMap (fun _ => (none : Option β)) = [] := by
  intro l
  induction l with
  | nil => rfl
  | cons x tl ih => simp [List.filterMap_cons, ih]

theorem toBatches_nil : toBatches [] = [] := by
  unfold toBatches
  rfl

theorem runBatches_spec (env : ExportEnv) (fmt : String) : ∀ (N : Nat) (l : List Node),
    l.length ≤ N → ∀ bIdx : Nat,
    runBatches env fmt bIdx (toBatches l)
      = (markPositions (100 * bIdx) l).filterMap (fun pn =>
          if env.batchOk (pn.1 / 100) then processNode env fmt pn.2 else none) := by
  intro N
  induction N with
  | zero =>
    intro l hl bIdx
    have : l = [] := List.eq_nil_of_length_eq_zero (by omega)
    subst this
    rw [toBatches_nil]
    rfl
  | succ N ih =>
    intro l hl bIdx
    match l with
    | [] => rw [toBatches_nil]; rfl
    | x :: xs =>
      rw [toBatches]
      have hhead : (markPositions (100 * bIdx) ((x :: xs).take 100)).filterMap (fun pn =>
          if env.batchOk (pn.1 / 100) then processNode env fmt pn.2 else none)
          = if env.batchOk bIdx
            then ((x :: xs).take 100).filterMap (processNode env fmt) else [] := by
        have hcong : ∀ pn ∈ markPositions (100 * bIdx) ((x :: xs).take 100),
            (if env.batchOk (pn.1 / 100) then processNode env fmt pn.2 else none)
            = (if env.batchOk bIdx then processNode env fmt pn.2 else none) := by
          intro pn hpn
          have hb := markPositions_bounds _ _ _ _ (by
            rw [show pn = (pn.1, pn.2) from rfl] at hpn
            exact hpn)
          have hlen : ((x :: xs).take 100).length ≤ 100 := by
            simp [List.length_take]
          have : pn.1 / 100 = bIdx := by omega
          rw [this]
        rw [filterMap_congr_own _ _ _ hcong]
        cases hbo : env.batchOk bIdx
        · simp only [Bool.false_eq_true, if_false]
          exact filterMap_none_own _
        · simp only [if_true]
          exact markPositions_filterMap_snd _ _ _
      by_cases hlen : 100 ≤ (x :: xs).length
      · have hdrop : ((x :: xs).drop 100).length ≤ N := by
          simp only [List.length_drop]
          simp only [List.length_cons] at hl ⊢
          omega
        rw [runBatches, ih _ hdrop (bIdx + 1)]
        conv_rhs =>
          rw [show (x :: xs) = (x :: xs).take 100 ++ (x :: xs).drop 100 from
            (List.take_append_drop 100 (x :: xs)).symm]
        rw [markPositions_append, List.filterMap_append, hhead]
        have : (100 : Nat) * bIdx + ((x :: xs).take 100).length = 100 * (bIdx + 1) := by
          simp only [List.length_take]
          omega
        rw [this]
      · have hdropnil : (x :: xs).drop 100 = [] := by
          apply List.drop_eq_nil_of_le
          omega
        have htake : (x :: xs).take 100 = x :: xs := by
          apply List.take_of_length_le
          omega
        rw [hdropnil, toBatches_nil, htake]
        rw [htake] at hhead
        simp only [runBatches]
        rw [hhead]
        simp

theorem toBatches_length : ∀ (N : Nat) (l : List Node), l.length ≤ N →
    (toBatches l).length = (l.length + 99) / 100 := by
  intro N
  induction N with
  | zero =>
    intro l hl
    have : l = [] := List.eq_nil_of_length_eq_zero (by omega)
    subst this
    rw [toBatches_nil]
    rfl
  | succ N ih =>
    intro l hl
    match l with
    | [] => rw [toBatches_nil]; rfl
    | x :: xs =>
      rw [toBatches]
      have hdrop : ((x :: xs).drop 100).length ≤ N := by
        simp only [List.length_drop, List.length_cons]
        simp only [List.length_cons] at hl
        omega
      simp only [List.length_cons, ih _ hdrop, List.length_drop]
      omega

theorem toBatches_sizes : ∀ (N : Nat) (l : List Node), l.length ≤ N →
    ∀ b ∈ toBatches l, b.length ≤ 100 ∧ b ≠ [] := by
  intro N
  induction N with
  | zero =>
    intro l hl b hb
    have : l = [] := List.eq_nil_of_length_eq_zero (by omega)
    subst this
    rw [toBatches_nil] at hb
    simp at hb
  | succ N ih =>
    intro l hl b hb
    match l with
    | [] =>
      rw [toBatches_nil] at hb
      simp at hb
    | x :: xs =>
      rw [toBatches] at hb
      have hdrop : ((x :: xs).drop 100).length ≤ N := by
        simp only [List.length_drop, List.length_cons]
        simp only [List.length_cons] at hl
        omega
      rcases List.mem_cons.mp hb with rfl | hbm
      · refine ⟨List.length_take_le 100 _, ?_⟩
        simp [List.take_succ_cons]
      · exact ih _ hdrop b hbm

theorem toBatches_split150 (l : List Node) (h : l.length = 150) :
    (toBatches l).map List.length = [100, 50] := by
  match l with
  | [] => simp at h
  | x :: xs =>
    simp only [List.length_cons] at h
    rw [toBatches]
    have h2 : ((x :: xs).drop 100).length = 50 := by
      simp only [List.length_drop, List.length_cons]
      omega
    match hm : (x :: xs).drop 100 with
    | [] => rw [hm] at h2; simp at h2
    | y :: ys =>
      rw [hm] at h2
      simp only [List.length_cons] at h2
      rw [toBatches]
      have h3 : (y :: ys).drop 100 = [] := by
        apply List.eq_nil_of_length_eq_zero
        simp only [List.length_drop, List.length_cons]
        omega
      rw [h3, toBatches_nil]
      have ht1 : ((x :: xs).take 100).length = 100 := by
        rw [List.length_take]
        simp only [List.length_cons]
        omega
      have ht2 : ((y :: ys).take 100).length = 50 := by
        rw [List.length_take]
        simp only [List.length_cons]
        omega
      rw [List.map_cons, List.map_cons, List.map_nil, ht1, ht2]

/-- C3. exportNodesAsFormat is total for every outcome of the network
collaborators (the try/catch recovery is modelled by the explicit
batch/download failure outcomes, so no failure escapes to the caller), it
issues one export request per batch with ceil(n/100) batches of at most
100 nodes each (150 nodes split into batches of 100 and 50), and the
resulting asset map contains exactly the nodes whose batch request
(position/100) succeeded, whose response URL was truthy and whose download
succeeded — so a failed batch request skips only that batch's nodes and a
failed download skips only that node. -/
theorem claim_C3_export_batches (env : ExportEnv) (fmt : String) (nodes : List Node) :
    ((toBatches nodes).length = (nodes.length + 99) / 100)
  ∧ (∀ b ∈ toBatches nodes, b.length ≤ 100 ∧ b ≠ [])
  ∧ (nodes.length = 150 → (toBatches nodes).map List.length = [100, 50])
  ∧ (exportNodesAsFormat env nodes fmt
      = (markPositions 0 nodes).filterMap (fun pn =>
          if env.batchOk (pn.1 / 100) then processNode env fmt pn.2 else none)) := by
  refine ⟨toBatches_length nodes.length nodes le_rfl,
    toBatches_sizes nodes.length nodes le_rfl, toBatches_split150 nodes, ?_⟩
  have h := runBatches_spec env fmt nodes.length nodes le_rfl 0
  simpa [exportNodesAsFormat] using h

/-- C3 witness: a concrete 150-node list splits into batches of 100 and
50, via the claim theorem. -/
theorem claim_C3_export_batches_witness :
    (toBatches (List.replicate 150 nodeC4)).map List.length = [100, 50] :=
  (claim_C3_export_batches ⟨fun _ => true, fun _ => none, fun _ => true⟩ "svg"
    (List.replicate 150 nodeC4)).2.2.1 (by simp)

/-! ## Decimal rendering: injectivity via a parse round-trip -/

theorem digitChar_toNat (d : Nat) (h : d < 10) : (digitChar d).toNat = 48 + d := by
  unfold digitChar
  rw [toNat_ofNat_valid _ (by omega)]

theorem parseDigits_append (l : List Char) (c : Char) :
    parseDigits (l ++ [c]) = parseDigits l * 10 + (c.toNat - 48) := by
  simp [parseDigits, List.foldl_append]

theorem parseDigits_natToStrAux (fuel : Nat) : ∀ n, n < 10 ^ fuel →
    parseDigits (natToStrAux fuel n) = n := by
  induction fuel with
  | zero =>
    intro n h
    simp only [pow_zero, Nat.lt_one_iff] at h
    simp [h, natToStrAux, parseDigits]
  | succ f ih =>
    intro n h
    by_cases h10 : n < 10
    · simp only [natToStrAux, h10, if_true]
      simp [parseDigits, digitChar_toNat n h10]
    · simp only [natToStrAux, h10, if_false, parseDigits_append]
      have hlt : n / 10 < 10 ^ f := by
        rw [Nat.div_lt_iff_lt_mul (by norm_num)]
        calc n < 10 ^ (f + 1) := h
        _ = 10 ^ f * 10 := by ring
      rw [ih _ hlt, digitChar_toNat _ (Nat.mod_lt n (by norm_num))]
      omega

theorem parseDigits_natToStr (n : Nat) : parseDigits (natToStr n).data = n := by
  have hn : n < 10 ^ (n + 1) := by
    calc n < 10 ^ n := Nat.lt_pow_self (by norm_num) n
    _ ≤ 10 ^ (n + 1) := Nat.pow_le_pow_right (by norm_num) (by omega)
  exact parseDigits_natToStrAux (n + 1) n hn

theorem natToStr_inj (m n : Nat) (h : natToStr m = natToStr n) : m = n := by
  have hd : (natToStr m).data = (natToStr n).data := congrArg String.data h
  have h1 := parseDigits_natToStr m
  rw [hd, parseDigits_natToStr n] at h1
  omega

theorem natToStrAux_ne_nil (fuel n : Nat) : natToStrAux (fuel + 1) n ≠ [] := by
  unfold natToStrAux
  split <;> simp

/-! ## The Name Resolver collision loop -/

/-- The suffixed candidate base-k built by the collision loop's template
literal. -/
def mkSuffixName (base : String) (k : Nat) : String := base ++ "-" ++ natToStr k

/-- The k-th candidate tried by the collision loop: the bare slug first,
then base-1, base-2, ... -/
def resolveCand (base : String) (k : Nat) : String :=
  if k = 0 then base else mkSuffixName base k

/-- The while (usedNames.has(name)) loop; the fuel bounds the number of
iterations (sufficient fuel is supplied by resolveName). -/
def resolveLoop (base : String) (used : List String) : Nat → Nat → String
  | 0, k => mkSuffixName base k
  | fuel + 1, k =>
    if resolveCand base k ∈ used then resolveLoop base used fuel (k + 1)
    else resolveCand base k

/-- Resolve a base slug against the used-name set: the first candidate
base, base-1, base-2, ... not yet used (used.length + 1 attempts always
suffice, by injectivity of the candidate family). -/
def resolveName (base : String) (used : List String) : String :=
  resolveLoop base used (used.length + 1) 0

theorem mkSuffixName_inj (base : String) (i j : Nat)
    (h : mkSuffixName base i = mkSuffixName base j) : i = j := by
  unfold mkSuffixName at h
  have hd := congrArg String.data h
  simp only [string_data_append] at hd
  have := List.append_cancel_left hd
  apply natToStr_inj
  cases he1 : natToStr i with
  | mk l1 =>
    cases he2 : natToStr j with
    | mk l2 =>
      rw [he1, he2] at this
      simp only at this
      rw [this]

theorem mkSuffixName_data_length (base : String) (k : Nat) :
    (mkSuffixName base k).data.length = base.data.length + 1 + (natToStr k).data.length := by
  unfold mkSuffixName
  simp [string_data_append]
  omega

theorem resolveCand_inj (base : String) : Function.Injective (resolveCand base) := by
  intro i j h
  unfold resolveCand at h
  by_cases hi : i = 0 <;> by_cases hj : j = 0
  · omega
  · exfalso
    rw [if_pos hi, if_neg hj] at h
    have hlen := congrArg (fun s => s.data.length) h
    simp only [mkSuffixName_data_length] at hlen
    have hpos : (natToStr j).data.length ≥ 1 := by
      show (natToStrAux (j + 1) j).length ≥ 1
      cases he : natToStrAux (j + 1) j with
      | nil => exact absurd he (natToStrAux_ne_nil j j)
      | cons a l => simp
    omega
  · exfalso
    rw [if_neg hi, if_pos hj] at h
    have hlen := congrArg (fun s => s.data.length) h
    simp only [mkSuffixName_data_length] at hlen
    have hpos : (natToStr i).data.length ≥ 1 := by
      show (natToStrAux (i + 1) i).length ≥ 1
      cases he : natToStrAux (i + 1) i with
      | nil => exact absurd he (natToStrAux_ne_nil i i)
      | cons a l => simp
    omega
  · rw [if_neg hi, if_neg hj] at h
    exact mkSuffixName_inj base i j h

theorem resolveLoop_not_mem (base : String) (used : List String) : ∀ (fuel k : Nat),
    (∃ j, k ≤ j ∧ j < k + fuel ∧ resolveCand base j ∉ used) →
    resolveLoop base used fuel k ∉ used := by
  intro fuel
  induction fuel with
  | zero =>
    intro k ⟨j, hj1, hj2, _⟩
    omega
  | succ f ih =>
    intro k ⟨j, hj1, hj2, hj3⟩
    unfold resolveLoop
    by_cases hc : resolveCand base k ∈ used
    · simp only [hc, if_true]
      apply ih (k + 1)
      refine ⟨j, ?_, by omega, hj3⟩
      rcases Nat.eq_or_lt_of_le hj1 with rfl | hlt
      · exact absurd hc hj3
      · omega
    · simp only [hc, if_false]
      exact not_false

theorem resolveName_not_mem (base : String) (used : List String) :
    resolveName base used ∉ used := by
  apply resolveLoop_not_mem
  by_contra hall
  push_neg at hall
  have hsub : ((List.range (used.length + 1)).map (resolveCand base)).toFinset ⊆
      used.toFinset := by
    intro x hx
    simp only [List.mem_toFinset, List.mem_map, List.mem_range] at hx
    obtain ⟨j, hj, rfl⟩ := hx
    simp only [List.mem_toFinset]
    exact hall j (by omega) (by omega)
  have hnodup : ((List.range (used.length + 1)).map (resolveCand base)).Nodup :=
    (List.nodup_range _).map (resolveCand_inj base)
  have hcard1 : ((List.range (used.length + 1)).map (resolveCand base)).toFinset.card
      = used.length + 1 := by
    rw [List.toFinset_card_of_nodup hnodup]
    simp
  have hcard2 : used.toFinset.card ≤ used.length := used.toFinset_card_le
  have := Finset.card_le_card hsub
  omega

/-! ## The Template and Style emitter walks -/

/-- The base slug for one element: toTokenName of a truthy name, or the
positional fallback el-(pre-order index). -/
def elementBaseName (name : Option String) (idx : Nat) : String :=
  match name with
  | some s => if s ≠ "" then toTokenName s else "el-" ++ natToStr idx
  | none => "el-" ++ natToStr idx

/-- assets.find(a => a.id === el.id) combined with the truthiness guard
asset && asset.filename of the Template walk. -/
def assetHit (assets : List AssetRec) (id : String) : Option AssetRec :=
  match assets.find? (fun a => a.id == id) with
  | some a => if jsStrTruthy a.filename then some a else none
  | none => none

/-- The markup the Template emitter writes for one element (the class
attribute strings as emitted; surrounding indentation elided). -/
inductive JsxRender where
  | img (className : String)
  | span (className : String) (propName : String)
  | divContainer (className : String)
  | divShape (className : String)
deriving DecidableEq

def JsxRender.className : JsxRender → String
  | .img c => c
  | .span c _ => c
  | .divContainer c => c
  | .divShape c => c

/-- One visited element of the Template walk: its resolved element class
name (recorded in usedNames for every element) and the markup emitted for
it, if any (an element of an unhandled type emits none). -/
structure JsxEntry where
  elementName : String
  render : Option JsxRender
deriving DecidableEq

/-- The mutable state of generateChildJSXWithAssets: globalIndex,
textIndex and the per-component usedNames set (as a list, membership
only). -/
structure GenState where
  globalIndex : Nat
  textIndex : Nat
  usedNames : List String
deriving DecidableEq

/-- One pass of generateChildJSXWithAssets over a sibling list; recursion
into children is delegated to the recurse argument (tied by the fuel in
jsxWalk).  Branch order follows the source: resolved asset first, then
text, then container (the only recursive case), then plain shapes. -/
def jsxStep (recurse : List Element → GenState → List JsxEntry × GenState)
    (componentClass : String) (assets : List AssetRec) :
    List Element → GenState → List JsxEntry × GenState
  | [], st => ([], st)
  | el :: rest, st =>
    let gi := st.globalIndex + 1
    let ename := resolveName (elementBaseName el.data.name gi) st.usedNames
    let cn := componentClass ++ "__" ++ ename
    let st1 : GenState := ⟨gi, st.textIndex, ename :: st.usedNames⟩
    let handled : List JsxEntry × GenState :=
      match assetHit assets el.data.id with
      | some a =>
        ([⟨ename, some (.img (if a.hasImageFill then cn
          else cn ++ " " ++ componentClass ++ "__icon"))⟩], st1)
      | none =>
        if el.data.type == "TEXT" && jsStrTruthy el.data.text then
          ([⟨ename, some (.span cn ("text" ++ natToStr (st.textIndex + 1)))⟩],
            ⟨gi, st.textIndex + 1, ename :: st.usedNames⟩)
        else if el.data.type == "FRAME" || el.data.type == "GROUP" ||
            el.data.type == "INSTANCE" then
          let child := recurse el.children st1
          (⟨ename, some (.divContainer cn)⟩ :: child.1, child.2)
        else if el.data.type == "RECTANGLE" || el.data.type == "ELLIPSE" then
          ([⟨ename, some (.divShape cn)⟩], st1)
        else ([⟨ename, none⟩], st1)
    let restR := jsxStep recurse componentClass assets rest handled.2
    (handled.1 ++ restR.1, restR.2)

/-- generateChildJSXWithAssets from scripts/fetch-figma.js; the fuel
bounds the nesting depth. -/
def jsxWalk (componentClass : String) (assets : List AssetRec) :
    Nat → List Element → GenState → List JsxEntry × GenState
  | 0, _, st => ([], st)
  | fuel + 1, els, st => jsxStep (jsxWalk componentClass assets fuel) componentClass assets els st

/-- The Template walk entry point: globalIndex 0, textIndex 0, usedNames
seeded empty per component. -/
def generateChildJSXWithAssets (fuel : Nat) (els : List Element)
    (componentClass : String) (assets : List AssetRec) : List JsxEntry × GenState :=
  jsxWalk componentClass assets fuel els ⟨0, 0, []⟩

/-- The mutable state of generateChildScss: the running element index and
the per-component usedNames set. -/
structure ScssState where
  index : Nat
  usedNames : List String
deriving DecidableEq

/-- One pass of generateChildScss over a sibling list: resolve the class
name (selector &__name), record it, then recurse into the children, then
the remaining siblings.  The rule bodies (layout, sizing, color, text
styles) do not affect the selector names and are elided. -/
def scssStep (recurse : List Element → ScssState → List String × ScssState) :
    List Element → ScssState → List String × ScssState
  | [], st => ([], st)
  | el :: rest, st =>
    let cname := resolveName (elementBaseName el.data.name st.index) st.usedNames
    let st1 : ScssState := ⟨st.index + 1, cname :: st.usedNames⟩
    let child := recurse el.children st1
    let restR := scssStep recurse rest child.2
    (cname :: child.1 ++ restR.1, restR.2)

/-- generateChildScss from scripts/fetch-figma.js; the fuel bounds the
nesting depth. -/
def scssWalk : Nat → List Element → ScssState → List String × ScssState
  | 0, _, st => ([], st)
  | fuel + 1, els, st => scssStep (scssWalk fuel) els st

/-- The Style walk entry point: index 1, usedNames seeded empty per
component. -/
def generateChildScss (fuel : Nat) (els : List Element) : List String × ScssState :=
  scssWalk fuel els ⟨1, []⟩

/-! ## C8: resolved element class names are pairwise distinct -/

/-- Invariant of a Style-walk function: emitted names are distinct, fresh
with respect to the incoming used set, and all end up recorded in the
outgoing used set together with the incoming ones. -/
def ScssInv (f : List Element → ScssState → List String × ScssState) : Prop :=
  ∀ els st,
    ((f els st).1.Nodup)
    ∧ (∀ x ∈ (f els st).1, x ∉ st.usedNames)
    ∧ (∀ x, (x ∈ (f els st).1 ∨ x ∈ st.usedNames) → x ∈ (f els st).2.usedNames)

theorem scssStep_inv (recurse : List Element → ScssState → List String × ScssState)
    (h : ScssInv recurse) : ScssInv (scssStep recurse) := by
  intro els
  induction els with
  | nil =>
    intro st
    exact ⟨List.nodup_nil, fun x hx => absurd hx (List.not_mem_nil x),
      fun x hx => hx.elim (fun hx => absurd hx (List.not_mem_nil x)) id⟩
  | cons el rest ih =>
    intro st
    simp only [scssStep, List.cons_append]
    have hfresh := resolveName_not_mem (elementBaseName el.data.name st.index) st.usedNames
    generalize hg : resolveName (elementBaseName el.data.name st.index) st.usedNames = cname at hfresh ⊢
    obtain ⟨hcn, hcf, hcc⟩ := h el.children ⟨st.index + 1, cname :: st.usedNames⟩
    obtain ⟨hrn, hrf, hrc⟩ := ih ((recurse el.children ⟨st.index + 1, cname :: st.usedNames⟩).2)
    have hcmem : cname ∈ (⟨st.index + 1, cname :: st.usedNames⟩ : ScssState).usedNames :=
      List.mem_cons_self cname st.usedNames
    refine ⟨?_, ?_, ?_⟩
    · simp only [List.nodup_cons]
      refine ⟨?_, ?_⟩
      · intro hmem
        rcases List.mem_append.mp hmem with hm | hm
        · exact hcf cname hm hcmem
        · exact hrf cname hm (hcc cname (Or.inr hcmem))
      · apply List.Nodup.append hcn hrn
        intro x hx1 hx2
        exact hrf x hx2 (hcc x (Or.inl hx1))
    · intro x hx
      rcases List.mem_cons.mp hx with hxe | hx
      · exact hxe ▸ hfresh
      · rcases List.mem_append.mp hx with hm | hm
        · intro hxs
          exact hcf x hm (List.mem_cons_of_mem cname hxs)
        · intro hxs
          exact hrf x hm (hcc x (Or.inr (List.mem_cons_of_mem cname hxs)))
    · intro x hx
      rcases hx with hx | hx
      · rcases List.mem_cons.mp hx with hxe | hx
        · exact hxe ▸ hrc cname (Or.inr (hcc cname (Or.inr hcmem)))
        · rcases List.mem_append.mp hx with hm | hm
          · exact hrc x (Or.inr (hcc x (Or.inl hm)))
          · exact hrc x (Or.inl hm)
      · exact hrc x (Or.inr (hcc x (Or.inr (List.mem_cons_of_mem cname hx))))

theorem scssWalk_inv : ∀ fuel : Nat, ScssInv (scssWalk fuel) := by
  intro fuel
  induction fuel with
  | zero =>
    intro els st
    exact ⟨List.nodup_nil, fun x hx => absurd hx (List.not_mem_nil x),
      fun x hx => hx.elim (fun hx => absurd hx (List.not_mem_nil x)) id⟩
  | succ f ih =>
    intro els st
    exact scssStep_inv (scssWalk f) ih els st

/-- Core composition step for the uniqueness invariant: a fresh head name,
invariant child names recorded into an intermediate used set, and
invariant sibling names on top of it, compose to distinct names overall. -/
theorem names_cons_core (ename : String) (used : List String) (hfresh : ename ∉ used)
    (tailNames : List String) (used2 : List String)
    (htn : tailNames.Nodup) (htf : ∀ x ∈ tailNames, x ∉ ename :: used)
    (htc : ∀ x, (x ∈ tailNames ∨ x ∈ ename :: used) → x ∈ used2)
    (restNames : List String) (used3 : List String)
    (hrn : restNames.Nodup) (hrf : ∀ x ∈ restNames, x ∉ used2)
    (hrc : ∀ x, (x ∈ restNames ∨ x ∈ used2) → x ∈ used3) :
    ((ename :: tailNames ++ restNames).Nodup)
    ∧ (∀ x ∈ ename :: tailNames ++ restNames, x ∉ used)
    ∧ (∀ x, (x ∈ ename :: tailNames ++ restNames ∨ x ∈ used) → x ∈ used3) := by
  have hcmem : ename ∈ ename :: used := List.mem_cons_self ename used
  refine ⟨?_, ?_, ?_⟩
  · simp only [List.cons_append, List.nodup_cons]
    refine ⟨?_, ?_⟩
    · intro hmem
      rcases List.mem_append.mp hmem with hm | hm
      · exact htf ename hm hcmem
      · exact hrf ename hm (htc ename (Or.inr hcmem))
    · apply List.Nodup.append htn hrn
      intro x hx1 hx2
      exact hrf x hx2 (htc x (Or.inl hx1))
  · intro x hx
    simp only [List.cons_append, List.mem_cons] at hx
    rcases hx with hxe | hx
    · exact hxe ▸ hfresh
    · rcases List.mem_append.mp hx with hm | hm
      · intro hxs
        exact htf x hm (List.mem_cons_of_mem ename hxs)
      · intro hxs
        exact hrf x hm (htc x (Or.inr (List.mem_cons_of_mem ename hxs)))
  · intro x hx
    rcases hx with hx | hx
    · simp only [List.cons_append, List.mem_cons] at hx
      rcases hx with hxe | hx
      · exact hxe ▸ hrc ename (Or.inr (htc ename (Or.inr hcmem)))
      · rcases List.mem_append.mp hx with hm | hm
        · exact hrc x (Or.inr (htc x (Or.inl hm)))
        · exact hrc x (Or.inl hm)
    · exact hrc x (Or.inr (htc x (Or.inr (List.mem_cons_of_mem ename hx))))

/-- Invariant of a Template-walk function: the resolved element names are
distinct, fresh with respect to the incoming used set, and recorded. -/
def JsxInv (f : List Element → GenState → List JsxEntry × GenState) : Prop :=
  ∀ els st,
    (((f els st).1.map JsxEntry.elementName).Nodup)
    ∧ (∀ x ∈ (f els st).1.map JsxEntry.elementName, x ∉ st.usedNames)
    ∧ (∀ x, (x ∈ (f els st).1.map JsxEntry.elementName ∨ x ∈ st.usedNames) →
        x ∈ (f els st).2.usedNames)

theorem jsxStep_inv (componentClass : String) (assets : List AssetRec)
    (recurse : List Element → GenState → List JsxEntry × GenState)
    (h : JsxInv recurse) : JsxInv (jsxStep recurse componentClass assets) := by
  intro els
  induction els with
  | nil =>
    intro st
    exact ⟨List.nodup_nil, fun x hx => absurd hx (List.not_mem_nil x),
      fun x hx => hx.elim (fun hx => absurd hx (List.not_mem_nil x)) id⟩
  | cons el rest ih =>
    intro st
    simp only [jsxStep]
    have hfresh := resolveName_not_mem
      (elementBaseName el.data.name (st.globalIndex + 1)) st.usedNames
    generalize hg : resolveName
      (elementBaseName el.data.name (st.globalIndex + 1)) st.usedNames = ename at hfresh ⊢
    have htriv : ∀ tIdx : Nat,
        let stX : GenState := ⟨st.globalIndex + 1, tIdx, ename :: st.usedNames⟩
        ([] : List String).Nodup ∧ (∀ x ∈ ([] : List String), x ∉ ename :: st.usedNames) ∧
          (∀ x, (x ∈ ([] : List String) ∨ x ∈ ename :: st.usedNames) → x ∈ stX.usedNames) := by
      intro tIdx
      exact ⟨List.nodup_nil, fun x hx => absurd hx (List.not_mem_nil x),
        fun x hx => hx.elim (fun hx => absurd hx (List.not_mem_nil x)) id⟩
    rcases hah : assetHit assets el.data.id with _ | a
    · simp only [hah]
      by_cases ht : (el.data.type == "TEXT" && jsStrTruthy el.data.text) = true
      · simp only [ht, if_true]
        obtain ⟨hrn, hrf, hrc⟩ :=
          ih ⟨st.globalIndex + 1, st.textIndex + 1, ename :: st.usedNames⟩
        obtain ⟨htn, htf, htc⟩ := htriv (st.textIndex + 1)
        simp only [List.map_append, List.map_cons, List.map_nil, List.nil_append,
          List.singleton_append]
        exact names_cons_core ename st.usedNames hfresh [] (ename :: st.usedNames)
          htn htf htc _ _ hrn hrf hrc
      · simp only [ht, if_false]
        by_cases hc : (el.data.type == "FRAME" || el.data.type == "GROUP" ||
            el.data.type == "INSTANCE") = true
        · simp only [hc, if_true]
          obtain ⟨hcn, hcf, hcc⟩ := h el.children
            ⟨st.globalIndex + 1, st.textIndex, ename :: st.usedNames⟩
          obtain ⟨hrn, hrf, hrc⟩ := ih ((recurse el.children
            ⟨st.globalIndex + 1, st.textIndex, ename :: st.usedNames⟩).2)
          simp only [List.map_append, List.map_cons]
          exact names_cons_core ename st.usedNames hfresh _ _ hcn hcf hcc _ _ hrn hrf hrc
        · simp only [hc, if_false]
          by_cases hs : (el.data.type == "RECTANGLE" || el.data.type == "ELLIPSE") = true
          · simp only [hs, if_true]
            obtain ⟨hrn, hrf, hrc⟩ :=
              ih ⟨st.globalIndex + 1, st.textIndex, ename :: st.usedNames⟩
            obtain ⟨htn, htf, htc⟩ := htriv st.textIndex
            simp only [List.map_append, List.map_cons, List.map_nil, List.nil_append,
              List.singleton_append]
            exact names_cons_core ename st.usedNames hfresh [] (ename :: st.usedNames)
              htn htf htc _ _ hrn hrf hrc
          · simp only [hs, if_false]
            obtain ⟨hrn, hrf, hrc⟩ :=
              ih ⟨st.globalIndex + 1, st.textIndex, ename :: st.usedNames⟩
            obtain ⟨htn, htf, htc⟩ := htriv st.textIndex
            simp only [List.map_append, List.map_cons, List.map_nil, List.nil_append,
              List.singleton_append]
            exact names_cons_core ename st.usedNames hfresh [] (ename :: st.usedNames)
              htn htf htc _ _ hrn hrf hrc
    · simp only [hah]
      obtain ⟨hrn, hrf, hrc⟩ :=
        ih ⟨st.globalIndex + 1, st.textIndex, ename :: st.usedNames⟩
      obtain ⟨htn, htf, htc⟩ := htriv st.textIndex
      simp only [List.map_append, List.map_cons, List.map_nil, List.nil_append,
        List.singleton_append]
      exact names_cons_core ename st.usedNames hfresh [] (ename :: st.usedNames)
        htn htf htc _ _ hrn hrf hrc

theorem jsxWalk_inv (componentClass : String) (assets : List AssetRec) :
    ∀ fuel : Nat, JsxInv (jsxWalk componentClass assets fuel) := by
  intro fuel
  induction fuel with
  | zero =>
    intro els st
    exact ⟨List.nodup_nil, fun x hx => absurd hx (List.not_mem_nil x),
      fun x hx => hx.elim (fun hx => absurd hx (List.not_mem_nil x)) id⟩
  | succ f ih =>
    intro els st
    exact jsxStep_inv componentClass assets (jsxWalk componentClass assets f) ih els st

/-- Two sibling vector nodes both labelled Icon. -/
def iconEl : Element := .mk { id := "i1", name := some "Icon", type := "VECTOR", depth := 1 } []

def iconEl2 : Element := .mk { id := "i2", name := some "Icon", type := "VECTOR", depth := 1 } []

/-- C8. Within one component's element set, the resolved element class
names are pairwise distinct in both emitters: the used-name set is seeded
empty per component, a colliding base slug receives suffixes -1, -2, ...
until unused, and a node's resolved name is recorded before its children
are processed, so two siblings both named Icon resolve to icon and icon-1
in document order. -/
theorem claim_C8_unique_element_classes :
    (∀ (fuel : Nat) (els : List Element), (generateChildScss fuel els).1.Nodup)
  ∧ (∀ (fuel : Nat) (els : List Element) (cc : String) (assets : List AssetRec),
      (((generateChildJSXWithAssets fuel els cc assets).1).map JsxEntry.elementName).Nodup)
  ∧ ((generateChildScss 1 [iconEl, iconEl2]).1 = ["icon", "icon-1"])
  ∧ (((generateChildJSXWithAssets 1 [iconEl, iconEl2] "comp" []).1).map
      JsxEntry.elementName = ["icon", "icon-1"]) := by
  refine ⟨?_, ?_, by decide, by decide⟩
  · intro fuel els
    exact (scssWalk_inv fuel els ⟨1, []⟩).1
  · intro fuel els cc assets
    exact (jsxWalk_inv cc assets fuel els ⟨0, 0, []⟩).1

/-! ## C1: the two emitter walks resolve the same class names -/

/-- Alignment condition under which the Style walk and the Template walk
visit the same nodes: every element that has children is a
FRAME/GROUP/INSTANCE container without a resolved asset filename (the
Template walk descends only into such elements, while the Style walk
descends into every element's children). -/
def alignedEls (assets : List AssetRec) : Nat → List Element → Bool
  | 0, _ => true
  | fuel + 1, els => els.all fun el =>
    (el.children.isEmpty ||
      ((el.data.type == "FRAME" || el.data.type == "GROUP" || el.data.type == "INSTANCE")
        && (assetHit assets el.data.id).isNone))
    && alignedEls assets fuel el.children

theorem scssWalk_nil (fuel : Nat) (st : ScssState) : scssWalk fuel [] st = ([], st) := by
  cases fuel <;> rfl

theorem genstate_eta (st : GenState) :
    (⟨st.globalIndex, st.textIndex, st.usedNames⟩ : GenState) = st := rfl

theorem walks_agree (cc : String) (assets : List AssetRec) : ∀ fuel : Nat,
    ∀ (els : List Element) (gi t : Nat) (used : List String),
    alignedEls assets fuel els = true →
    scssWalk fuel els ⟨gi + 1, used⟩
      = (((jsxWalk cc assets fuel els ⟨gi, t, used⟩).1).map JsxEntry.elementName,
         ⟨(jsxWalk cc assets fuel els ⟨gi, t, used⟩).2.globalIndex + 1,
          (jsxWalk cc assets fuel els ⟨gi, t, used⟩).2.usedNames⟩) := by
  intro fuel
  induction fuel with
  | zero =>
    intro els gi t used _
    rfl
  | succ f ihf =>
    intro els
    induction els with
    | nil =>
      intro gi t used _
      rfl
    | cons el rest ihl =>
      intro gi t used halign
      have hsw : ∀ (els' : List Element) (st : ScssState),
          scssStep (scssWalk f) els' st = scssWalk (f + 1) els' st := fun _ _ => rfl
      have hjw : ∀ (els' : List Element) (st : GenState),
          jsxStep (jsxWalk cc assets f) cc assets els' st
            = jsxWalk cc assets (f + 1) els' st := fun _ _ => rfl
      simp only [alignedEls, List.all_cons, Bool.and_eq_true] at halign
      obtain ⟨⟨hel, hch⟩, hrest⟩ := halign
      have hrest' : alignedEls assets (f + 1) rest = true := hrest
      simp only [scssWalk, scssStep, jsxWalk, jsxStep]
      generalize hg : resolveName (elementBaseName el.data.name (gi + 1)) used = ename
      rcases hah : assetHit assets el.data.id with _ | a
      · simp only [hah]
        by_cases htx : (el.data.type == "TEXT" && jsStrTruthy el.data.text) = true
        · have htype : el.data.type = "TEXT" := by
            have h1 := htx
            simp only [Bool.and_eq_true, beq_iff_eq] at h1
            exact h1.1
          have hempty : el.children = [] := by
            rw [htype] at hel
            simp only [hah, Option.isNone_none, Bool.and_true] at hel
            simp at hel
            exact hel
          have hrs := ihl (gi + 1) (t + 1) (ename :: used) hrest'
          simp only [htx, if_true, hempty, scssWalk_nil]
          simp [hsw, hjw, hrs, genstate_eta, List.cons_append, List.map_append]
        · simp only [htx, if_false]
          by_cases hco : (el.data.type == "FRAME" || el.data.type == "GROUP" ||
              el.data.type == "INSTANCE") = true
          · simp only [hco, if_true]
            have hcs := ihf el.children (gi + 1) t (ename :: used) hch
            have hrs := ihl
              ((jsxWalk cc assets f el.children ⟨gi + 1, t, ename :: used⟩).2.globalIndex)
              ((jsxWalk cc assets f el.children ⟨gi + 1, t, ename :: used⟩).2.textIndex)
              ((jsxWalk cc assets f el.children ⟨gi + 1, t, ename :: used⟩).2.usedNames)
              hrest'
            simp [hsw, hjw, hcs, hrs, genstate_eta, List.cons_append, List.map_append]
          · have hempty : el.children = [] := by
              simp only [hco, Bool.false_and, Bool.or_false] at hel
              simp at hel
              exact hel
            have hrs := ihl (gi + 1) t (ename :: used) hrest'
            simp only [hco, if_false, hempty, scssWalk_nil]
            by_cases hs : (el.data.type == "RECTANGLE" || el.data.type == "ELLIPSE") = true
            · simp only [hs, if_true]
              simp [hsw, hjw, hrs, genstate_eta, List.cons_append, List.map_append]
            · simp only [hs, if_false]
              simp [hsw, hjw, hrs, genstate_eta, List.cons_append, List.map_append]
      · have hempty : el.children = [] := by
          simp only [hah, Option.isNone_some, Bool.and_false, Bool.or_false] at hel
          simp at hel
          exact hel
        have hrs := ihl (gi + 1) t (ename :: used) hrest'
        simp only [hah, hempty, scssWalk_nil]
        simp [hsw, hjw, hrs, genstate_eta, List.cons_append, List.map_append]

theorem jsxWalk_className (cc : String) (assets : List AssetRec) : ∀ fuel : Nat,
    ∀ (els : List Element) (st : GenState),
    ∀ e ∈ (jsxWalk cc assets fuel els st).1, ∀ r, e.render = some r →
      r.className = cc ++ "__" ++ e.elementName ∨
      r.className = (cc ++ "__" ++ e.elementName) ++ " " ++ cc ++ "__icon" := by
  intro fuel
  induction fuel with
  | zero =>
    intro els st e he
    exact absurd he (List.not_mem_nil e)
  | succ f ihf =>
    intro els
    induction els with
    | nil =>
      intro st e he
      exact absurd he (List.not_mem_nil e)
    | cons el rest ihl =>
      intro st e he r hr
      simp only [jsxWalk, jsxStep] at he
      rcases hah : assetHit assets el.data.id with _ | a
      · rw [hah] at he
        by_cases htx : (el.data.type == "TEXT" && jsStrTruthy el.data.text) = true
        · simp only [htx, if_true] at he
          rcases List.mem_append.mp he with hm | hm
          · have hme := List.mem_singleton.mp hm
            subst hme
            have hre := Option.some.inj hr
            subst hre
            left
            rfl
          · exact ihl _ e hm r hr
        · simp only [htx, if_false] at he
          by_cases hco : (el.data.type == "FRAME" || el.data.type == "GROUP" ||
              el.data.type == "INSTANCE") = true
          · simp only [hco, if_true] at he
            rcases List.mem_append.mp he with hm | hm
            · rcases List.mem_cons.mp hm with hme | hm
              · subst hme
                have hre := Option.some.inj hr
                subst hre
                left
                rfl
              · exact ihf el.children _ e hm r hr
            · exact ihl _ e hm r hr
          · simp only [hco, if_false] at he
            by_cases hs : (el.data.type == "RECTANGLE" || el.data.type == "ELLIPSE") = true
            · simp only [hs, if_true] at he
              rcases List.mem_append.mp he with hm | hm
              · have hme := List.mem_singleton.mp hm
                subst hme
                have hre := Option.some.inj hr
                subst hre
                left
                rfl
              · exact ihl _ e hm r hr
            · simp only [hs, if_false] at he
              rcases List.mem_append.mp he with hm | hm
              · have hme := List.mem_singleton.mp hm
                subst hme
                exact absurd hr (by simp)
              · exact ihl _ e hm r hr
      · rw [hah] at he
        rcases List.mem_append.mp he with hm | hm
        · have hme := List.mem_singleton.mp hm
          subst hme
          have hre := Option.some.inj hr
          subst hre
          by_cases hif : a.hasImageFill
          · left
            simp [hif, JsxRender.className]
          · right
            simp [hif, JsxRender.className]
        · exact ihl _ e hm r hr

/-- A FRAME labelled f that carries a resolved asset filename and has a
TEXT child labelled x; the Template renders the frame as an image and
never visits the child, while the Style emitter still walks it. -/
def frameEl : Element := .mk { id := "F", name := some "f", type := "FRAME", depth := 1 }
  [.mk { id := "X", name := some "x", type := "TEXT", depth := 2, text := some "hello" } []]

/-- A sibling TEXT element labelled x following the frame. -/
def sibEl : Element := .mk
  { id := "S", name := some "x", type := "TEXT", depth := 1, text := some "world" } []

/-- The asset map entry giving the frame an exported PNG. -/
def frameAssets : List AssetRec :=
  [{ id := "F", name := some "f", type := "FRAME", hasImageFill := true,
     filename := some "f.png" }]

/-- C1 counterexample. The claim states the two walks resolve every
element to the same elementClass for every subtree and asset map; but when
a FRAME with a resolved asset filename has children, the Template walk
renders an image and skips the children while the Style walk still visits
them, so the used-name sets diverge: the Style emitter names the frame's
child x and the sibling x-1, while the Template names the sibling x — the
same node gets different class names in the two outputs. -/
theorem claim_C1_counterexample :
    (generateChildScss 2 [frameEl, sibEl]).1 = ["f", "x", "x-1"] ∧
    ((generateChildJSXWithAssets 2 [frameEl, sibEl] "comp" frameAssets).1).map
      JsxEntry.elementName = ["f", "x"] ∧
    (generateChildScss 2 [frameEl, sibEl]).1 ≠
      ((generateChildJSXWithAssets 2 [frameEl, sibEl] "comp" frameAssets).1).map
        JsxEntry.elementName := by
  refine ⟨by decide, by decide, by decide⟩

/-- C1 (amended). When both walks traverse the same nodes — every element
with children is a FRAME/GROUP/INSTANCE container without a resolved asset
filename — the Style walk and the Template walk, each with its own
used-name set seeded empty, resolve every element to the same elementClass
in the same pre-order, and every class attribute the Template writes is
componentClass__elementClass with that shared elementClass (image assets
may append the extra componentClass__icon class). -/
theorem claim_C1_emitters_agree (fuel : Nat) (assets : List AssetRec) (cc : String)
    (els : List Element) (h : alignedEls assets fuel els = true) :
    ((generateChildScss fuel els).1
      = ((generateChildJSXWithAssets fuel els cc assets).1).map JsxEntry.elementName)
  ∧ (∀ e ∈ (generateChildJSXWithAssets fuel els cc assets).1, ∀ r, e.render = some r →
      r.className = cc ++ "__" ++ e.elementName ∨
      r.className = (cc ++ "__" ++ e.elementName) ++ " " ++ cc ++ "__icon") := by
  constructor
  · have := walks_agree cc assets fuel els 0 0 [] h
    unfold generateChildScss generateChildJSXWithAssets
    rw [show (⟨1, []⟩ : ScssState) = ⟨0 + 1, []⟩ from rfl, this]
  · intro e he r hr
    exact jsxWalk_className cc assets fuel els ⟨0, 0, []⟩ e he r hr

/-- C1 witness: the amended statement applied to a concrete aligned
forest (two TEXT siblings sharing the label x, no assets). -/
theorem claim_C1_emitters_agree_witness :
    alignedEls [] 2 [sibEl, sibEl] = true ∧
    ((generateChildScss 2 [sibEl, sibEl]).1
      = ((generateChildJSXWithAssets 2 [sibEl, sibEl] "comp" []).1).map
          JsxEntry.elementName) :=
  ⟨by decide, (claim_C1_emitters_agree 2 [] "comp" [sibEl, sibEl] (by decide)).1⟩

/-! ## C2: positional text prop names across the three outputs -/

/-- The ordered text prop names bound by the Template walk (the props of
its span placeholders, in emission order). -/
def textPropsOf (entries : List JsxEntry) : List String :=
  entries.filterMap (fun e =>
    match e.render with
    | some (JsxRender.span _ p) => some p
    | _ => none)

/-- The text prop names declared by generateReactComponent: one default
per extracted text style, named text(index+1) in order. -/
def reactTextProps (ts : List TextStyle) : List String :=
  (List.range ts.length).map (fun i => "text" ++ natToStr (i + 1))

/-- The text prop controls declared by generateStorybookStory's argTypes
loop: one control per extracted text style, named text(index+1) in order. -/
def storyTextProps (ts : List TextStyle) : List String :=
  (List.range ts.length).map (fun i => "text" ++ natToStr (i + 1))

/-- Positional prop names text(start+1), ..., text(start+k)
(verification-side helper). -/
def textPropRange (start k : Nat) : List String :=
  (List.range k).map (fun i => "text" ++ natToStr (start + i + 1))

theorem textPropRange_zero (s : Nat) : textPropRange s 0 = [] := rfl

theorem textPropRange_succ (s k : Nat) :
    textPropRange s (k + 1) = ("text" ++ natToStr (s + 1)) :: textPropRange (s + 1) k := by
  unfold textPropRange
  rw [List.range_succ_eq_map, List.map_cons, List.map_map]
  congr 1
  apply List.map_congr_left
  intro i _
  simp only [Function.comp]
  congr 2
  omega

theorem textPropRange_add (s k1 k2 : Nat) :
    textPropRange s (k1 + k2) = textPropRange s k1 ++ textPropRange (s + k1) k2 := by
  induction k1 generalizing s with
  | zero => simp [textPropRange_zero]
  | succ k ih =>
    have h1 : k + 1 + k2 = (k + k2) + 1 := by omega
    rw [h1, textPropRange_succ, ih (s + 1), textPropRange_succ]
    have h2 : s + 1 + k = s + (k + 1) := by omega
    rw [h2]
    rfl

theorem reactTextProps_eq (ts : List TextStyle) :
    reactTextProps ts = textPropRange 0 ts.length := by
  unfold reactTextProps textPropRange
  apply List.map_congr_left
  intro i _
  congr 2
  omega

/-- The Template walk's text-placeholder condition on an extracted element
coincides with the node-level guard node.type === 'TEXT' &&
node.characters. -/
theorem textCond_eq (d : NodeData) (dep : Nat) :
    ((mkElementData d dep).type == "TEXT" && jsStrTruthy (mkElementData d dep).text)
      = isTextish d := by
  by_cases h : isTextish d = true
  · have h2 := h
    simp only [isTextish, Bool.and_eq_true, beq_iff_eq] at h2
    simp [mkElementData, h, h2.1, h2.2]
  · have h' : isTextish d = false := by
      cases he : isTextish d
      · rfl
      · exact absurd he h
    rw [h']
    simp only [mkElementData, h', Bool.false_eq_true, if_false]
    simp [jsStrTruthy]

theorem mkElementData_id (d : NodeData) (dep : Nat) : (mkElementData d dep).id = d.id := rfl

theorem mkElementData_type (d : NodeData) (dep : Nat) : (mkElementData d dep).type = d.type := rfl

theorem textPropsOf_append (l1 l2 : List JsxEntry) :
    textPropsOf (l1 ++ l2) = textPropsOf l1 ++ textPropsOf l2 := by
  simp [textPropsOf, List.filterMap_append]

theorem flatMap_const_nil (l : List Node) :
    (l.flatMap (fun _ => ([] : List TextStyle))) = [] := by
  induction l with
  | nil => rfl
  | cons x xs ih => simp [List.flatMap_cons, ih]

/-- Condition under which the Template walk binds every extracted text
node: every node with children is a FRAME/GROUP/INSTANCE container
without a resolved asset filename, and no text node has a resolved asset
filename (a text node with an asset renders as an image and binds no text
prop). -/
def c2okNodes (assets : List AssetRec) : Nat → List Node → Bool
  | 0, _ => true
  | fuel + 1, ns => ns.all fun n =>
    (n.children.isEmpty ||
      ((n.data.type == "FRAME" || n.data.type == "GROUP" || n.data.type == "INSTANCE")
        && (assetHit assets n.data.id).isNone))
    && (!(isTextish n.data) || (assetHit assets n.data.id).isNone)
    && c2okNodes assets fuel n.children

theorem mkElementData_name (d : NodeData) (dep : Nat) :
    (mkElementData d dep).name = d.name := rfl

theorem jsx_textprops (cc : String) (assets : List AssetRec) : ∀ fuel : Nat,
    ∀ (ns : List Node) (dep : Nat) (st : GenState),
    c2okNodes assets fuel ns = true →
    textPropsOf (jsxWalk cc assets fuel
        (ns.map (fun n => extractChildElements fuel n dep)) st).1
      = textPropRange st.textIndex
          (ns.flatMap (fun n => extractTextNodes fuel n dep)).length
    ∧ (jsxWalk cc assets fuel
        (ns.map (fun n => extractChildElements fuel n dep)) st).2.textIndex
      = st.textIndex + (ns.flatMap (fun n => extractTextNodes fuel n dep)).length := by
  intro fuel
  induction fuel with
  | zero =>
    intro ns dep st _
    constructor
    · simp [jsxWalk, textPropsOf, extractTextNodes, flatMap_const_nil, textPropRange_zero]
    · simp [jsxWalk, extractTextNodes, flatMap_const_nil]
  | succ f ihf =>
    intro ns
    induction ns with
    | nil =>
      intro dep st _
      constructor
      · simp [jsxWalk, jsxStep, textPropsOf, textPropRange_zero]
      · simp [jsxWalk, jsxStep]
    | cons n rest ihl =>
      intro dep st hok
      rcases n with ⟨nd, ncs⟩
      simp only [c2okNodes, List.all_cons, Bool.and_eq_true, Node.data, Node.children] at hok
      obtain ⟨⟨⟨hc1, hc2⟩, hch⟩, hrest⟩ := hok
      have hrest' : c2okNodes assets (f + 1) rest = true := hrest
      have hjw : ∀ (els' : List Element) (st' : GenState),
          jsxStep (jsxWalk cc assets f) cc assets els' st'
            = jsxWalk cc assets (f + 1) els' st' := fun _ _ => rfl
      have hhdE : extractChildElements (f + 1) (Node.mk nd ncs) dep
          = Element.mk (mkElementData nd dep)
              (ncs.map (fun c => extractChildElements f c (dep + 1))) := rfl
      have hhdT : extractTextNodes (f + 1) (Node.mk nd ncs) dep
          = (if isTextish nd then [mkTextStyle nd dep] else [])
            ++ ncs.flatMap (fun c => extractTextNodes f c (dep + 1)) := rfl
      rw [List.map_cons, hhdE, List.flatMap_cons, hhdT]
      simp only [jsxWalk, jsxStep, Element.data, Element.children, mkElementData_id,
        mkElementData_type]
      generalize hg : resolveName
        (elementBaseName (mkElementData nd dep).name (st.globalIndex + 1))
        st.usedNames = ename
      rcases hah : assetHit assets nd.id with _ | a
      · simp only [hah]
        by_cases htx : isTextish nd = true
        · have hcond : (nd.type == "TEXT"
              && jsStrTruthy (mkElementData nd dep).text) = true := by
            have ht2 := textCond_eq nd dep
            rw [mkElementData_type] at ht2
            rw [ht2]
            exact htx
          have htype : nd.type = "TEXT" := by
            have h2 := htx
            simp only [isTextish, Bool.and_eq_true, beq_iff_eq] at h2
            exact h2.1
          have hempty : ncs = [] := by
            rw [htype] at hc1
            simp at hc1
            exact hc1
          obtain ⟨ih1, ih2⟩ := ihl dep
            ⟨st.globalIndex + 1, st.textIndex + 1, ename :: st.usedNames⟩ hrest'
          simp only [hcond, if_true]
          constructor
          · simp only [textPropsOf_append, hjw, ih1]
            simp only [htx, if_true, hempty, List.flatMap_nil, List.append_nil,
              List.singleton_append, List.length_cons]
            rw [textPropRange_succ]
            simp [textPropsOf]
          · simp only [hjw, ih2]
            simp only [htx, if_true, hempty, List.flatMap_nil, List.append_nil,
              List.singleton_append, List.length_cons]
            omega
        · have htxf : isTextish nd = false := by
            cases he : isTextish nd
            · rfl
            · exact absurd he htx
          have hcond : (nd.type == "TEXT"
              && jsStrTruthy (mkElementData nd dep).text) = false := by
            have ht2 := textCond_eq nd dep
            rw [mkElementData_type] at ht2
            rw [ht2]
            exact htxf
          simp only [hcond, Bool.false_eq_true, if_false]
          by_cases hco : (nd.type == "FRAME" || nd.type == "GROUP" ||
              nd.type == "INSTANCE") = true
          · simp only [hco, if_true]
            obtain ⟨ihc1, ihc2⟩ := ihf ncs (dep + 1)
              ⟨st.globalIndex + 1, st.textIndex, ename :: st.usedNames⟩ hch
            obtain ⟨ih1, ih2⟩ := ihl dep
              ((jsxWalk cc assets f (ncs.map (fun c => extractChildElements f c (dep + 1)))
                ⟨st.globalIndex + 1, st.textIndex, ename :: st.usedNames⟩).2) hrest'
            constructor
            · have hdrop : ∀ L : List JsxEntry, textPropsOf
                  (JsxEntry.mk ename (some (JsxRender.divContainer (cc ++ "__" ++ ename))) :: L)
                  = textPropsOf L := fun L => rfl
              simp only [List.cons_append]
              rw [hdrop]
              simp only [textPropsOf_append, hjw, ih1]
              rw [ihc1, ihc2]
              simp only [htxf, Bool.false_eq_true, if_false, List.nil_append,
                List.length_append]
              rw [textPropRange_add]
            · simp only [hjw, ih2, ihc2]
              simp only [htxf, Bool.false_eq_true, if_false, List.nil_append,
                List.length_append]
              omega
          · have hcof : (nd.type == "FRAME" || nd.type == "GROUP" ||
                nd.type == "INSTANCE") = false := by
              cases he : (nd.type == "FRAME" || nd.type == "GROUP" || nd.type == "INSTANCE")
              · rfl
              · exact absurd he hco
            have hempty : ncs = [] := by
              simp only [hcof, Bool.false_and, Bool.or_false] at hc1
              simp at hc1
              exact hc1
            obtain ⟨ih1, ih2⟩ := ihl dep
              ⟨st.globalIndex + 1, st.textIndex, ename :: st.usedNames⟩ hrest'
            simp only [hcof, Bool.false_eq_true, if_false]
            by_cases hs : (nd.type == "RECTANGLE" || nd.type == "ELLIPSE") = true
            · simp only [hs, if_true]
              constructor
              · simp only [textPropsOf_append, hjw, ih1]
                simp only [htxf, Bool.false_eq_true, if_false, hempty, List.flatMap_nil,
                  List.append_nil, List.nil_append]
                rw [show textPropsOf [JsxEntry.mk ename
                    (some (JsxRender.divShape (cc ++ "__" ++ ename)))] = [] from rfl]
                rw [List.nil_append]
              · simp only [hjw, ih2]
                simp only [htxf, Bool.false_eq_true, if_false, hempty, List.flatMap_nil,
                  List.append_nil, List.nil_append]
            · have hsf : (nd.type == "RECTANGLE" || nd.type == "ELLIPSE") = false := by
                cases he : (nd.type == "RECTANGLE" || nd.type == "ELLIPSE")
                · rfl
                · exact absurd he hs
              simp only [hsf, Bool.false_eq_true, if_false]
              constructor
              · simp only [textPropsOf_append, hjw, ih1]
                simp only [htxf, Bool.false_eq_true, if_false, hempty, List.flatMap_nil,
                  List.append_nil, List.nil_append]
                rw [show textPropsOf [JsxEntry.mk ename (none : Option JsxRender)]
                    = [] from rfl]
                rw [List.nil_append]
              · simp only [hjw, ih2]
                simp only [htxf, Bool.false_eq_true, if_false, hempty, List.flatMap_nil,
                  List.append_nil, List.nil_append]
      · have hnotext : isTextish nd = false := by
          cases he : isTextish nd
          · rfl
          · rw [he] at hc2
            simp [hah] at hc2
        have hempty : ncs = [] := by
          simp only [hah, Option.isNone_some, Bool.and_false, Bool.or_false] at hc1
          simp at hc1
          exact hc1
        obtain ⟨ih1, ih2⟩ := ihl dep
          ⟨st.globalIndex + 1, st.textIndex, ename :: st.usedNames⟩ hrest'
        simp only [hah]
        constructor
        · simp only [textPropsOf_append, hjw, ih1]
          simp [textPropsOf, hnotext, hempty]
        · simp only [hjw, ih2]
          simp [hnotext, hempty]

/-- A TEXT node carrying an image fill: extracted as a text style, but
rendered by the Template as an image once the export gives it a
filename. -/
def textAssetChild : Node := .mk
  { id := "T", name := some "t", type := "TEXT", characters := some "Hi",
    fills := some [{ type := "IMAGE" }] } []

/-- A component whose only child is the image-filled TEXT node. -/
def compC2 : Node := .mk
  { id := "C", name := some "Comp", type := "COMPONENT" } [textAssetChild]

/-- C2 counterexample. The claim states the Template binds the same
positional text props that the React component and the Catalog declare;
but a TEXT node with an image fill and an exported filename is counted by
extractTextNodes (so React and the Catalog declare text1) while the
Template's walk takes the asset branch and binds no text prop at all. -/
theorem claim_C2_counterexample :
    textPropsOf (jsxWalk "comp" (extractComponentData 2 compC2 [("T", "t-T.png")]).assets 1
        (extractComponentData 2 compC2 [("T", "t-T.png")]).childElements ⟨0, 0, []⟩).1 = [] ∧
    reactTextProps (extractComponentData 2 compC2 [("T", "t-T.png")]).textStyles = ["text1"] ∧
    storyTextProps (extractComponentData 2 compC2 [("T", "t-T.png")]).textStyles = ["text1"] := by
  refine ⟨by decide, by decide, by decide⟩

/-- C2 (amended). The React component and the Catalog always declare the
same positional names text1, text2, ... (both map the same extracted text
style list through index+1).  The Template's walk binds exactly those
names, in pre-order, provided it visits every text node and none of them
resolves to an asset: every node with children is a FRAME/GROUP/INSTANCE
container without a resolved asset filename and no text node has a
resolved asset filename (and the component root is not itself a text
node). -/
theorem claim_C2_text_props (fuel : Nat) (comp : Node)
    (assetMap : List (String × String)) (cc : String)
    (hroot : isTextish comp.data = false)
    (hok : c2okNodes (extractComponentData (fuel + 1) comp assetMap).assets fuel
      comp.children = true) :
    (textPropsOf (jsxWalk cc (extractComponentData (fuel + 1) comp assetMap).assets fuel
        (extractComponentData (fuel + 1) comp assetMap).childElements ⟨0, 0, []⟩).1
      = reactTextProps (extractComponentData (fuel + 1) comp assetMap).textStyles)
  ∧ (storyTextProps (extractComponentData (fuel + 1) comp assetMap).textStyles
      = reactTextProps (extractComponentData (fuel + 1) comp assetMap).textStyles) := by
  refine ⟨?_, rfl⟩
  rcases comp with ⟨cd, ccs⟩
  have hchld : (extractComponentData (fuel + 1) (Node.mk cd ccs) assetMap).childElements
      = ccs.map (fun c => extractChildElements fuel c (0 + 1)) := rfl
  have hts : (extractComponentData (fuel + 1) (Node.mk cd ccs) assetMap).textStyles
      = ccs.flatMap (fun c => extractTextNodes fuel c (0 + 1)) := by
    show extractTextNodes (fuel + 1) (Node.mk cd ccs) 0 = _
    have hr : isTextish cd = false := hroot
    simp [extractTextNodes, hr]
  rw [hchld, hts, reactTextProps_eq]
  have h := jsx_textprops cc (extractComponentData (fuel + 1) (Node.mk cd ccs) assetMap).assets
    fuel ccs (0 + 1) ⟨0, 0, []⟩ hok
  exact h.1

/-- A plain TEXT child with no fills. -/
def plainTextChild : Node := .mk
  { id := "P", name := some "p", type := "TEXT", characters := some "Hi" } []

/-- A component whose only child is the plain TEXT node. -/
def compC2w : Node := .mk
  { id := "C2", name := some "W", type := "COMPONENT" } [plainTextChild]

/-- C2 witness: the amended statement applied to a component with one
plain text child and an empty asset map. -/
theorem claim_C2_text_props_witness :
    isTextish compC2w.data = false ∧
    c2okNodes (extractComponentData 2 compC2w []).assets 1 compC2w.children = true ∧
    (textPropsOf (jsxWalk "comp" (extractComponentData 2 compC2w []).assets 1
        (extractComponentData 2 compC2w []).childElements ⟨0, 0, []⟩).1
      = reactTextProps (extractComponentData 2 compC2w []).textStyles) :=
  ⟨by decide, by decide, (claim_C2_text_props 1 compC2w [] "comp" (by decide) (by decide)).1⟩
